import Mathlib

/-!
Verification development for the Exodusify workflow script
(src/exedusify_workflow_script.py).

The Python source is shallowly embedded below.  Strings are modelled as
Lean String / List Char; pandas tables as lists of records; the file
system touched by the import pipeline as explicit lists of directory and
file path strings.  Every definition is translated from the source code
of the script; modelling decisions that go beyond a literal transcription
(pandas join semantics, the pandas boolean-and coercion, the unidecode
table) are documented at the definition they concern.
-/

/-! ## Character helpers

The script operates on Python strings.  After `unidecode` every string it
manipulates is plain ASCII, so ASCII case folding and the ASCII whitespace
class model Python `str.lower` / `\s` / `str.strip` faithfully on the
data that actually reaches those operations. -/

/-- ASCII lower-casing on code points: the image of `Char.toLower`. -/
def lowerNat (n : Nat) : Nat := if 65 ≤ n ∧ n ≤ 90 then n + 32 else n

theorem toNat_charOfNat_of_lt {n : Nat} (h : n < 0xd800) : (Char.ofNat n).toNat = n := by
  have hv : n.isValidChar := Or.inl h
  rw [Char.ofNat, dif_pos hv]
  simp [Char.ofNatAux, Char.toNat, UInt32.toNat, BitVec.toNat_ofNatLt]

theorem char_toNat_lt (c : Char) : c.toNat < 1114112 := by
  rcases c.valid with h | h
  · exact Nat.lt_trans h (by norm_num)
  · exact h.2

theorem toLower_toNat (c : Char) : (Char.toLower c).toNat = lowerNat c.toNat := by
  rw [Char.toLower, lowerNat]
  split
  · next h => exact toNat_charOfNat_of_lt (by omega)
  · rfl

theorem char_eq_of_toNat_eq {c d : Char} (h : c.toNat = d.toNat) : c = d := by
  apply Char.ext
  exact UInt32.ext h

/-- Python whitespace class `\s` restricted to ASCII
(space, tab, newline, carriage return, vertical tab, form feed). -/
def isPySpace (c : Char) : Bool :=
  c == ' ' || c == '\t' || c == '\n' || c == '\r' || c == '\x0b' || c == '\x0c'

/-- The character class `[a-z0-9]` of the script's `NON_ALNUM` regex. -/
def isLowerAlnum (c : Char) : Bool :=
  (decide (97 ≤ c.toNat) && decide (c.toNat ≤ 122)) ||
    (decide (48 ≤ c.toNat) && decide (c.toNat ≤ 57))

/-- Characters that may appear in a canonical key: `[a-z0-9]` or a space. -/
def canonChar (c : Char) : Bool := isLowerAlnum c || c == ' '

/-! ## unidecode

`unidecode` transliterates character by character: ASCII code points map to
themselves, characters known to its tables map to an ASCII replacement
string, and unmapped code points map to the empty string.  The table below
is the fragment of those tables needed for the strings analysed here; all
theorems quantified over arbitrary strings use only the fact that ASCII
code points are fixed. -/

def unidecodeChar (c : Char) : List Char :=
  if c.toNat < 128 then [c]
  else if c == 'é' then ['e']
  else if c == 'É' then ['E']
  else if c == 'á' then ['a']
  else if c == 'à' then ['a']
  else if c == 'ö' then ['o']
  else if c == 'ü' then ['u']
  else if c == 'ñ' then ['n']
  else if c == 'ç' then ['c']
  else []

def unidecodeList (l : List Char) : List Char := (l.map unidecodeChar).flatten

/-- Case-insensitive literal prefix match, as performed by a compiled
regex with `re.IGNORECASE` on an ASCII literal: each text character
ASCII-lowercases to the corresponding (lowercase) pattern character. -/
def isCIPrefix : List Char → List Char → Bool
  | [], _ => true
  | _ :: _, [] => false
  | p :: ps, c :: cs => decide (lowerNat c.toNat = p.toNat) && isCIPrefix ps cs

/-! ## The FEAT_PATTERN substitution

`FEAT_PATTERN = re.compile(r"\(feat\..*?\)", re.IGNORECASE)` and
`FEAT_PATTERN.sub("", s)`: scanning left to right, a match starts at a
literal `"(feat."` (matched case-insensitively); the non-greedy
`.*?\)` then extends it to the first following `')'`, with `.` not
crossing a newline.  Matched spans are deleted and scanning resumes after
the span; positions where no close parenthesis is reachable do not match.
The recursion is by an explicit fuel argument bounded by the list length,
which keeps the function structurally recursive and evaluable by `decide`. -/

def startsWithFeat (l : List Char) : Bool := isCIPrefix "(feat.".data l

def featClose : List Char → Option (List Char)
  | [] => none
  | c :: rest => if c == ')' then some rest else if c == '\n' then none else featClose rest

def featSubGo : Nat → List Char → List Char
  | 0, l => l
  | _ + 1, [] => []
  | fuel + 1, c :: rest =>
      if startsWithFeat (c :: rest) then
        match featClose (rest.drop 5) with
        | some rest2 => featSubGo fuel rest2
        | none => c :: featSubGo fuel rest
      else c :: featSubGo fuel rest

def featSub (l : List Char) : List Char := featSubGo l.length l

/-! ## The REMIX_PATTERN substitution

`REMIX_PATTERN = re.compile(r"-\s*(remaster(ed)?|remix|edit|mix).*", re.IGNORECASE)`:
a match starts at a `'-'`, skips a maximal whitespace run, requires one of
the keywords case-insensitively, and the trailing greedy `.*` consumes up
to (not including) the next newline.  `sub("", s)` deletes every such
match, scanning left to right. -/

def remixKeywordAt (l : List Char) : Bool :=
  isCIPrefix "remaster".data l || isCIPrefix "remix".data l ||
    isCIPrefix "edit".data l || isCIPrefix "mix".data l

def remixSubGo : Nat → List Char → List Char
  | 0, l => l
  | _ + 1, [] => []
  | fuel + 1, c :: rest =>
      if c == '-' && remixKeywordAt (rest.dropWhile isPySpace) then
        remixSubGo fuel ((rest.dropWhile isPySpace).dropWhile fun d => !(d == '\n'))
      else c :: remixSubGo fuel rest

def remixSub (l : List Char) : List Char := remixSubGo l.length l

/-! ## Run replacement and stripping -/

/-- Merges adjacent spaces, so that `regex.sub` replacement of maximal
runs by a single space can be modelled as a character-wise map followed by
this merge. -/
def collapseSpaces : List Char → List Char
  | [] => []
  | [c] => [c]
  | a :: b :: rest =>
      if a == ' ' && b == ' ' then collapseSpaces (b :: rest)
      else a :: collapseSpaces (b :: rest)

/-- `NON_ALNUM.sub(" ", s)` with `NON_ALNUM = re.compile(r"[^a-z0-9]+")`:
every maximal run of characters outside `[a-z0-9]` becomes one space. -/
def nonAlnumSub (l : List Char) : List Char :=
  collapseSpaces (l.map fun c => if isLowerAlnum c then c else ' ')

/-- `re.sub(r"\s+", " ", s)`: every maximal whitespace run becomes one space. -/
def wsCollapse (l : List Char) : List Char :=
  collapseSpaces (l.map fun c => if isPySpace c then ' ' else c)

def lstripWS (l : List Char) : List Char := l.dropWhile isPySpace

def rstripWS (l : List Char) : List Char := (l.reverse.dropWhile isPySpace).reverse

/-- Python `str.strip()` (ASCII whitespace). -/
def pyStrip (l : List Char) : List Char := rstripWS (lstripWS l)

/-! ## canonicalize_string -/

/-- The processing pipeline of `canonicalize_string` on a non-empty value:
unidecode, strip the `(feat. …)` annotation, strip the `- remix/remaster…`
suffix, lowercase, replace non-alphanumeric runs by spaces, strip, and
collapse whitespace. -/
def canonList (l : List Char) : List Char :=
  wsCollapse (pyStrip (nonAlnumSub
    ((remixSub (featSub (unidecodeList l))).map Char.toLower)))

/-- `canonicalize_string(value)`.  A falsy (empty) value yields the empty
key; `None` input is modelled by the empty string, for which the guard
also returns the empty key. -/
def canonicalize_string (s : String) : String :=
  if s.data.isEmpty then "" else String.mk (canonList s.data)

/-! ## Shape of canonical keys

A canonical key contains only `[a-z0-9 ]`, never two adjacent spaces, and
neither starts nor ends with a space.  `canonicalize_string` always
produces such a key, and is the identity on such keys; idempotence
follows. -/

def noTwoSpaces : List Char → Bool
  | [] => true
  | [_] => true
  | a :: b :: rest => !(a == ' ' && b == ' ') && noTwoSpaces (b :: rest)

def isCanonKey (l : List Char) : Bool :=
  l.all canonChar && noTwoSpaces l &&
    !(l.head? == some ' ') && !(l.getLast? == some ' ')

theorem isLowerAlnum_toNat {c : Char} (h : isLowerAlnum c = true) :
    (97 ≤ c.toNat ∧ c.toNat ≤ 122) ∨ (48 ≤ c.toNat ∧ c.toNat ≤ 57) := by
  simp [isLowerAlnum] at h
  omega

theorem canonChar_toNat {c : Char} (h : canonChar c = true) :
    (97 ≤ c.toNat ∧ c.toNat ≤ 122) ∨ (48 ≤ c.toNat ∧ c.toNat ≤ 57) ∨ c.toNat = 32 := by
  simp [canonChar] at h
  rcases h with h | h
  · rcases isLowerAlnum_toNat h with h | h
    · exact Or.inl h
    · exact Or.inr (Or.inl h)
  · right; right
    rw [h]; rfl

theorem toNat_space : (' ' : Char).toNat = 32 := rfl

theorem char_eq_iff_toNat {c d : Char} : c = d ↔ c.toNat = d.toNat :=
  ⟨fun h => by rw [h], char_eq_of_toNat_eq⟩

/-! ### Identity of each stage on canonical keys -/

theorem unidecodeChar_ascii {c : Char} (h : c.toNat < 128) : unidecodeChar c = [c] := by
  rw [unidecodeChar, if_pos h]

theorem unidecodeList_ascii : ∀ l : List Char, (∀ c ∈ l, c.toNat < 128) → unidecodeList l = l
  | [], _ => rfl
  | c :: rest, h => by
    have hc := h c (by simp)
    have ih := unidecodeList_ascii rest (fun d hd => h d (by simp [hd]))
    simp only [unidecodeList, List.map_cons, List.flatten_cons] at *
    rw [unidecodeChar_ascii hc, ih]
    rfl

theorem isCIPrefix_cons_false {p c : Char} {ps cs : List Char}
    (h : lowerNat c.toNat ≠ p.toNat) : isCIPrefix (p :: ps) (c :: cs) = false := by
  rw [isCIPrefix]
  simp [h]

theorem startsWithFeat_false {c : Char} (rest : List Char) (h : c ≠ '(') :
    startsWithFeat (c :: rest) = false := by
  show isCIPrefix ('(' :: "feat.".data) (c :: rest) = false
  apply isCIPrefix_cons_false
  intro hx
  apply h
  apply char_eq_of_toNat_eq
  have h40 : ('(' : Char).toNat = 40 := rfl
  rw [h40]
  rw [h40] at hx
  unfold lowerNat at hx
  split_ifs at hx <;> omega

theorem featSubGo_id : ∀ (fuel : Nat) (l : List Char), (∀ c ∈ l, c ≠ '(') →
    featSubGo fuel l = l
  | 0, _, _ => rfl
  | _ + 1, [], _ => rfl
  | fuel + 1, c :: rest, h => by
    rw [featSubGo, if_neg]
    · rw [featSubGo_id fuel rest (fun d hd => h d (by simp [hd]))]
    · rw [startsWithFeat_false rest (h c (by simp))]
      simp

theorem featSub_id {l : List Char} (h : ∀ c ∈ l, c ≠ '(') : featSub l = l :=
  featSubGo_id l.length l h

theorem remixSubGo_id : ∀ (fuel : Nat) (l : List Char), (∀ c ∈ l, c ≠ '-') →
    remixSubGo fuel l = l
  | 0, _, _ => rfl
  | _ + 1, [], _ => rfl
  | fuel + 1, c :: rest, h => by
    rw [remixSubGo, if_neg]
    · rw [remixSubGo_id fuel rest (fun d hd => h d (by simp [hd]))]
    · have : (c == '-') = false := by
        simp
        exact h c (by simp)
      simp [this]

theorem remixSub_id {l : List Char} (h : ∀ c ∈ l, c ≠ '-') : remixSub l = l :=
  remixSubGo_id l.length l h

theorem toLower_canonChar {c : Char} (h : canonChar c = true) : Char.toLower c = c := by
  rw [Char.toLower, if_neg]
  rcases canonChar_toNat h with h1 | h1 | h1 <;> omega

theorem char_beq_toNat (c d : Char) : (c == d) = decide (c.toNat = d.toNat) := by
  by_cases h : c = d
  · subst h; simp
  · have h2 : c.toNat ≠ d.toNat := fun hn => h (char_eq_of_toNat_eq hn)
    simp [h, h2]

theorem isPySpace_eq (c : Char) : isPySpace c =
    (decide (c.toNat = 32) || decide (c.toNat = 9) || decide (c.toNat = 10) ||
      decide (c.toNat = 13) || decide (c.toNat = 11) || decide (c.toNat = 12)) := by
  rw [isPySpace, char_beq_toNat c ' ', char_beq_toNat c '\t', char_beq_toNat c '\n',
    char_beq_toNat c '\r', char_beq_toNat c '\x0b', char_beq_toNat c '\x0c']
  rfl

theorem canonChar_not_pySpace {c : Char} (h : canonChar c = true) (h2 : c ≠ ' ') :
    isPySpace c = false := by
  have h3 : c.toNat ≠ 32 := fun hn => h2 (char_eq_iff_toNat.mpr (by rw [hn]; rfl))
  have h1 := canonChar_toNat h
  rw [isPySpace_eq]
  simp only [Bool.or_eq_false_iff, decide_eq_false_iff_not]
  omega

theorem collapseSpaces_id : ∀ l : List Char, noTwoSpaces l = true → collapseSpaces l = l
  | [], _ => rfl
  | [_], _ => rfl
  | a :: b :: rest, h => by
    simp only [noTwoSpaces, Bool.and_eq_true, Bool.not_eq_true'] at h
    rw [collapseSpaces, if_neg (by simp [h.1])]
    rw [collapseSpaces_id (b :: rest) h.2]

theorem list_map_id_of {α : Type} {f : α → α} : ∀ {l : List α}, (∀ c ∈ l, f c = c) →
    l.map f = l
  | [], _ => rfl
  | c :: rest, h => by
    rw [List.map_cons, h c (by simp), list_map_id_of (fun d hd => h d (by simp [hd]))]

theorem nonAlnumSub_id {l : List Char} (hall : ∀ c ∈ l, canonChar c = true)
    (h2 : noTwoSpaces l = true) : nonAlnumSub l = l := by
  have hmap : (l.map fun c => if isLowerAlnum c then c else ' ') = l := by
    apply list_map_id_of
    intro c hc
    by_cases hx : isLowerAlnum c = true
    · simp [hx]
    · have := hall c hc
      simp [canonChar, hx] at this
      simp [hx, this]
  rw [nonAlnumSub, hmap]
  exact collapseSpaces_id l h2

theorem wsCollapse_id {l : List Char} (hall : ∀ c ∈ l, canonChar c = true)
    (h2 : noTwoSpaces l = true) : wsCollapse l = l := by
  have hmap : (l.map fun c => if isPySpace c then ' ' else c) = l := by
    apply list_map_id_of
    intro c hc
    by_cases hx : c = ' '
    · simp [hx]
    · rw [canonChar_not_pySpace (hall c hc) hx]
      simp
  rw [wsCollapse, hmap]
  exact collapseSpaces_id l h2

theorem lstripWS_id {l : List Char} (h : ∀ c, l.head? = some c → isPySpace c = false) :
    lstripWS l = l := by
  cases l with
  | nil => rfl
  | cons c rest =>
    rw [lstripWS, List.dropWhile_cons, if_neg]
    rw [h c rfl]
    simp

theorem rstripWS_id {l : List Char} (h : ∀ c, l.getLast? = some c → isPySpace c = false) :
    rstripWS l = l := by
  rw [rstripWS]
  have : l.reverse.dropWhile isPySpace = l.reverse := by
    cases hrev : l.reverse with
    | nil => rfl
    | cons c rest =>
      rw [List.dropWhile_cons, if_neg]
      have : l.getLast? = some c := by
        rw [← List.head?_reverse, hrev]
        rfl
      rw [h c this]
      simp
  rw [this, List.reverse_reverse]

theorem pyStrip_id {l : List Char} (hall : ∀ c ∈ l, canonChar c = true)
    (hh : l.head? ≠ some ' ') (hl : l.getLast? ≠ some ' ') :
    pyStrip l = l := by
  rw [pyStrip]
  rw [lstripWS_id, rstripWS_id]
  · intro c hc
    apply canonChar_not_pySpace (hall c (List.mem_of_mem_getLast? hc))
    intro he
    rw [he] at hc
    exact hl hc
  · intro c hc
    apply canonChar_not_pySpace (hall c (List.mem_of_mem_head? hc))
    intro he
    rw [he] at hc
    exact hh hc

/-- `canonicalize_string` is the identity on canonical keys. -/
theorem canonList_id {l : List Char} (h : isCanonKey l = true) : canonList l = l := by
  simp only [isCanonKey, Bool.and_eq_true, List.all_eq_true, Bool.not_eq_true',
    beq_eq_false_iff_ne] at h
  obtain ⟨⟨⟨hall, hnt⟩, hh⟩, hl⟩ := h
  have hall' : ∀ c ∈ l, canonChar c = true := hall
  have hascii : ∀ c ∈ l, c.toNat < 128 := by
    intro c hc
    rcases canonChar_toNat (hall' c hc) with h1 | h1 | h1 <;> omega
  have hnoParen : ∀ c ∈ l, c ≠ '(' := by
    intro c hc he
    have h1 := canonChar_toNat (hall' c hc)
    rw [he] at h1
    have h2 : ('(' : Char).toNat = 40 := rfl
    rw [h2] at h1
    omega
  have hnoDash : ∀ c ∈ l, c ≠ '-' := by
    intro c hc he
    have h1 := canonChar_toNat (hall' c hc)
    rw [he] at h1
    have h2 : ('-' : Char).toNat = 45 := rfl
    rw [h2] at h1
    omega
  have hmapLower : l.map Char.toLower = l := by
    apply list_map_id_of
    intro c hc
    exact toLower_canonChar (hall' c hc)
  rw [canonList, unidecodeList_ascii l hascii, featSub_id hnoParen,
    remixSub_id hnoDash, hmapLower, nonAlnumSub_id hall' hnt,
    pyStrip_id hall' hh hl]
  exact wsCollapse_id hall' hnt

/-! ### The pipeline always produces a canonical key -/

theorem mem_collapseSpaces : ∀ {l : List Char} {c : Char}, c ∈ collapseSpaces l → c ∈ l
  | [], _, h => by simp [collapseSpaces] at h
  | [_], _, h => by simpa [collapseSpaces] using h
  | a :: b :: rest, c, h => by
    rw [collapseSpaces] at h
    split at h
    · exact List.mem_cons_of_mem a (mem_collapseSpaces h)
    · rcases List.mem_cons.mp h with h | h
      · simp [h]
      · exact List.mem_cons_of_mem a (mem_collapseSpaces h)

theorem collapseSpaces_cons : ∀ (b : Char) (rest : List Char),
    ∃ t, collapseSpaces (b :: rest) = b :: t
  | _, [] => ⟨[], rfl⟩
  | b, r :: rs => by
    by_cases h : (b == ' ' && r == ' ') = true
    · obtain ⟨t, ht⟩ := collapseSpaces_cons r rs
      have hb : b = ' ' := by
        simp only [Bool.and_eq_true, beq_iff_eq] at h
        exact h.1
      have hr : r = ' ' := by
        simp only [Bool.and_eq_true, beq_iff_eq] at h
        exact h.2
      refine ⟨t, ?_⟩
      rw [collapseSpaces, if_pos h, ht, hb, hr]
    · exact ⟨collapseSpaces (r :: rs), by rw [collapseSpaces, if_neg h]⟩

theorem collapseSpaces_noTwo : ∀ l : List Char, noTwoSpaces (collapseSpaces l) = true
  | [] => rfl
  | [_] => rfl
  | a :: b :: rest => by
    by_cases h : (a == ' ' && b == ' ') = true
    · rw [collapseSpaces, if_pos h]
      exact collapseSpaces_noTwo (b :: rest)
    · rw [collapseSpaces, if_neg h]
      obtain ⟨t, ht⟩ := collapseSpaces_cons b rest
      have ih := collapseSpaces_noTwo (b :: rest)
      rw [ht] at ih ⊢
      have h' : (a == ' ' && b == ' ') = false := by
        cases hx : (a == ' ' && b == ' ') with
        | false => rfl
        | true => exact absurd hx h
      simp only [noTwoSpaces, Bool.and_eq_true, h', Bool.not_false]
      exact ⟨trivial, ih⟩

theorem noTwoSpaces_cons {c : Char} {l : List Char} (h : noTwoSpaces (c :: l) = true) :
    noTwoSpaces l = true := by
  cases l with
  | nil => rfl
  | cons b rest =>
    simp only [noTwoSpaces, Bool.and_eq_true] at h
    exact h.2

theorem noTwoSpaces_suffix : ∀ {pre l : List Char}, noTwoSpaces (pre ++ l) = true →
    noTwoSpaces l = true
  | [], _, h => h
  | _ :: pre, l, h => @noTwoSpaces_suffix pre l (noTwoSpaces_cons h)

theorem noTwoSpaces_append_left : ∀ (a b : List Char), noTwoSpaces (a ++ b) = true →
    noTwoSpaces a = true
  | [], _, _ => rfl
  | [_], _, _ => rfl
  | x :: y :: rest, b, h => by
    simp only [List.cons_append, noTwoSpaces, Bool.and_eq_true] at h ⊢
    exact ⟨h.1, noTwoSpaces_append_left (y :: rest) b h.2⟩

theorem dropWhile_head_false {p : Char → Bool} : ∀ {l : List Char} {c : Char} {t : List Char},
    l.dropWhile p = c :: t → p c = false
  | [], _, _, h => by simp at h
  | d :: rest, c, t, h => by
    rw [List.dropWhile_cons] at h
    split at h
    · exact dropWhile_head_false h
    · next hp =>
      injection h with h1 h2
      subst h1
      cases hx : p d with
      | false => rfl
      | true => exact absurd hx hp

theorem rstripWS_prefix_self (l : List Char) : rstripWS l <+: l := by
  rw [rstripWS]
  have h1 : l.reverse.dropWhile isPySpace <:+ l.reverse := List.dropWhile_suffix isPySpace
  have h2 := List.reverse_prefix.mpr h1
  rwa [List.reverse_reverse] at h2

theorem mem_rstripWS {c : Char} {l : List Char} (h : c ∈ rstripWS l) : c ∈ l :=
  (rstripWS_prefix_self l).subset h

theorem mem_pyStrip {c : Char} {l : List Char} (h : c ∈ pyStrip l) : c ∈ l := by
  rw [pyStrip] at h
  exact (List.dropWhile_sublist isPySpace).subset (mem_rstripWS h)

theorem pyStrip_noTwo {l : List Char} (h : noTwoSpaces l = true) :
    noTwoSpaces (pyStrip l) = true := by
  rw [pyStrip]
  have h1 : noTwoSpaces (lstripWS l) = true := by
    obtain ⟨pre, hpre⟩ :=
      (List.dropWhile_suffix isPySpace : List.dropWhile isPySpace l <:+ l)
    rw [lstripWS]
    exact noTwoSpaces_suffix (by rw [hpre]; exact h)
  obtain ⟨post, hpost⟩ := rstripWS_prefix_self (lstripWS l)
  exact noTwoSpaces_append_left _ post (by rw [hpost]; exact h1)

theorem pyStrip_head {l : List Char} {c : Char} (h : (pyStrip l).head? = some c) :
    isPySpace c = false := by
  rw [pyStrip] at h
  cases hs : rstripWS (lstripWS l) with
  | nil => rw [hs] at h; simp at h
  | cons d t =>
    rw [hs] at h
    simp only [List.head?_cons, Option.some.injEq] at h
    subst h
    obtain ⟨post, hpost⟩ := rstripWS_prefix_self (lstripWS l)
    rw [hs] at hpost
    have harg : l.dropWhile isPySpace = d :: (t ++ post) := by
      rw [lstripWS] at hpost
      exact hpost.symm
    exact dropWhile_head_false harg

theorem pyStrip_last {l : List Char} {c : Char} (h : (pyStrip l).getLast? = some c) :
    isPySpace c = false := by
  rw [pyStrip, rstripWS] at h
  rw [List.getLast?_reverse] at h
  cases hs : (lstripWS l).reverse.dropWhile isPySpace with
  | nil => rw [hs] at h; simp at h
  | cons d t =>
    rw [hs] at h
    simp only [List.head?_cons, Option.some.injEq] at h
    subst h
    exact dropWhile_head_false hs

theorem canonList_isCanonKey (l : List Char) : isCanonKey (canonList l) = true := by
  set m4 := (remixSub (featSub (unidecodeList l))).map Char.toLower with hm4
  have hall5 : ∀ c ∈ nonAlnumSub m4, canonChar c = true := by
    intro c hc
    rw [nonAlnumSub] at hc
    obtain ⟨d, _, hd⟩ := List.mem_map.mp (mem_collapseSpaces hc)
    by_cases hx : isLowerAlnum d = true
    · rw [if_pos hx] at hd
      rw [← hd]
      simp [canonChar, hx]
    · rw [if_neg hx] at hd
      rw [← hd]
      simp [canonChar]
  have hnt5 : noTwoSpaces (nonAlnumSub m4) = true := collapseSpaces_noTwo _
  have hall6 : ∀ c ∈ pyStrip (nonAlnumSub m4), canonChar c = true :=
    fun c hc => hall5 c (mem_pyStrip hc)
  have hnt6 : noTwoSpaces (pyStrip (nonAlnumSub m4)) = true := pyStrip_noTwo hnt5
  have hh6 : (pyStrip (nonAlnumSub m4)).head? ≠ some ' ' := by
    intro hx
    have := pyStrip_head hx
    simp [isPySpace] at this
  have hl6 : (pyStrip (nonAlnumSub m4)).getLast? ≠ some ' ' := by
    intro hx
    have := pyStrip_last hx
    simp [isPySpace] at this
  have hfinal : canonList l = pyStrip (nonAlnumSub m4) := by
    rw [canonList, ← hm4]
    exact wsCollapse_id hall6 hnt6
  rw [hfinal]
  simp only [isCanonKey, Bool.and_eq_true, List.all_eq_true, Bool.not_eq_true',
    beq_eq_false_iff_ne]
  exact ⟨⟨⟨hall6, hnt6⟩, hh6⟩, hl6⟩

theorem canonicalize_string_eq (s : String) :
    canonicalize_string s = String.mk (canonList s.data) := by
  rw [canonicalize_string]
  split
  · next h =>
    have hd : s.data = [] := List.isEmpty_iff.mp h
    rw [hd]
    rfl
  · rfl

/-! ## Case variance

`caseVar` relates two character lists that agree position-wise up to ASCII
letter case. -/

def caseEqB (c d : Char) : Bool := decide (lowerNat c.toNat = lowerNat d.toNat)

def caseVar : List Char → List Char → Bool
  | [], [] => true
  | c :: cs, d :: ds => caseEqB c d && caseVar cs ds
  | _, _ => false

theorem caseEqB_refl (c : Char) : caseEqB c c = true := by simp [caseEqB]

theorem caseVar_refl : ∀ l : List Char, caseVar l l = true
  | [] => rfl
  | c :: rest => by
    rw [caseVar, caseEqB_refl, caseVar_refl rest]
    rfl

theorem caseVar_length : ∀ {l m : List Char}, caseVar l m = true → l.length = m.length
  | [], [], _ => rfl
  | c :: cs, d :: ds, h => by
    simp only [caseVar, Bool.and_eq_true] at h
    simp [caseVar_length h.2]
  | [], _ :: _, h => by simp [caseVar] at h
  | _ :: _, [], h => by simp [caseVar] at h

theorem caseVar_append : ∀ {a b c d : List Char}, caseVar a b = true → caseVar c d = true →
    caseVar (a ++ c) (b ++ d) = true
  | [], [], _, _, _, h2 => h2
  | x :: xs, y :: ys, _, _, h1, h2 => by
    simp only [caseVar, Bool.and_eq_true] at h1
    simp only [List.cons_append, caseVar, Bool.and_eq_true]
    exact ⟨h1.1, caseVar_append h1.2 h2⟩
  | [], _ :: _, _, _, h1, _ => by simp [caseVar] at h1
  | _ :: _, [], _, _, h1, _ => by simp [caseVar] at h1

theorem caseEqB_beq_eq {c d k : Char} (h : caseEqB c d = true)
    (hk : k.toNat < 65 ∨ (90 < k.toNat ∧ k.toNat < 97) ∨ 122 < k.toNat) :
    (c == k) = (d == k) := by
  simp only [caseEqB, decide_eq_true_eq] at h
  have hiff : c.toNat = k.toNat ↔ d.toNat = k.toNat := by
    unfold lowerNat at h
    split_ifs at h <;> omega
  rw [char_beq_toNat c k, char_beq_toNat d k, decide_eq_decide.mpr hiff]

theorem caseEqB_lower_eq {c d : Char} (h : caseEqB c d = true) :
    Char.toLower c = Char.toLower d := by
  apply char_eq_of_toNat_eq
  rw [toLower_toNat, toLower_toNat]
  simpa [caseEqB] using h

theorem caseEqB_ascii_iff {c d : Char} (h : caseEqB c d = true) :
    c.toNat < 128 ↔ d.toNat < 128 := by
  simp only [caseEqB, decide_eq_true_eq] at h
  unfold lowerNat at h
  split_ifs at h <;> omega

theorem unidecodeChar_caseVar {c d : Char} (h : caseEqB c d = true) :
    caseVar (unidecodeChar c) (unidecodeChar d) = true := by
  by_cases hc : c.toNat < 128
  · have hd : d.toNat < 128 := (caseEqB_ascii_iff h).mp hc
    rw [unidecodeChar_ascii hc, unidecodeChar_ascii hd]
    simp [caseVar, h]
  · have hd : ¬ d.toNat < 128 := fun hx => hc ((caseEqB_ascii_iff h).mpr hx)
    have hcd : c = d := by
      apply char_eq_of_toNat_eq
      simp only [caseEqB, decide_eq_true_eq] at h
      unfold lowerNat at h
      split_ifs at h <;> omega
    subst hcd
    exact caseVar_refl _

theorem unidecodeList_caseVar : ∀ {l m : List Char}, caseVar l m = true →
    caseVar (unidecodeList l) (unidecodeList m) = true
  | [], [], _ => rfl
  | c :: cs, d :: ds, h => by
    simp only [caseVar, Bool.and_eq_true] at h
    simp only [unidecodeList, List.map_cons, List.flatten_cons]
    exact caseVar_append (unidecodeChar_caseVar h.1) (unidecodeList_caseVar h.2)
  | [], _ :: _, h => by simp [caseVar] at h
  | _ :: _, [], h => by simp [caseVar] at h

theorem isCIPrefix_caseVar : ∀ (pat : List Char) {l m : List Char}, caseVar l m = true →
    isCIPrefix pat l = isCIPrefix pat m
  | [], _, _, _ => rfl
  | _ :: _, [], [], _ => rfl
  | p :: ps, c :: cs, d :: ds, h => by
    simp only [caseVar, Bool.and_eq_true] at h
    rw [isCIPrefix, isCIPrefix]
    have h0 : lowerNat c.toNat = lowerNat d.toNat := by
      have := h.1
      simpa [caseEqB] using this
    rw [h0, isCIPrefix_caseVar ps h.2]
  | _ :: _, [], _ :: _, h => by simp [caseVar] at h
  | _ :: _, _ :: _, [], h => by simp [caseVar] at h

theorem featClose_caseVar : ∀ {l m : List Char}, caseVar l m = true →
    (featClose l = none ∧ featClose m = none) ∨
      ∃ a b, featClose l = some a ∧ featClose m = some b ∧ caseVar a b = true
  | [], [], _ => Or.inl ⟨rfl, rfl⟩
  | c :: cs, d :: ds, h => by
    simp only [caseVar, Bool.and_eq_true] at h
    have hcp : (c == ')') = (d == ')') := caseEqB_beq_eq h.1 (Or.inl (by decide))
    have hnl : (c == '\n') = (d == '\n') := caseEqB_beq_eq h.1 (Or.inl (by decide))
    rw [featClose, featClose]
    by_cases h1 : (c == ')') = true
    · have h1d : (d == ')') = true := by rw [← hcp]; exact h1
      rw [if_pos h1, if_pos h1d]
      exact Or.inr ⟨cs, ds, rfl, rfl, h.2⟩
    · have h1d : ¬ (d == ')') = true := by rw [← hcp]; exact h1
      rw [if_neg h1, if_neg h1d]
      by_cases h2 : (c == '\n') = true
      · have h2d : (d == '\n') = true := by rw [← hnl]; exact h2
        rw [if_pos h2, if_pos h2d]
        exact Or.inl ⟨rfl, rfl⟩
      · have h2d : ¬ (d == '\n') = true := by rw [← hnl]; exact h2
        rw [if_neg h2, if_neg h2d]
        exact featClose_caseVar h.2
  | [], _ :: _, h => by simp [caseVar] at h
  | _ :: _, [], h => by simp [caseVar] at h

theorem caseVar_drop : ∀ (n : Nat) {l m : List Char}, caseVar l m = true →
    caseVar (l.drop n) (m.drop n) = true
  | 0, _, _, h => h
  | _ + 1, [], [], h => h
  | n + 1, c :: cs, d :: ds, h => by
    simp only [caseVar, Bool.and_eq_true] at h
    simpa using caseVar_drop n h.2
  | _ + 1, [], _ :: _, h => by simp [caseVar] at h
  | _ + 1, _ :: _, [], h => by simp [caseVar] at h

theorem caseVar_dropWhile (p : Char → Bool) (hp : ∀ c d, caseEqB c d = true → p c = p d) :
    ∀ {l m : List Char}, caseVar l m = true →
      caseVar (l.dropWhile p) (m.dropWhile p) = true
  | [], [], _ => rfl
  | c :: cs, d :: ds, h => by
    simp only [caseVar, Bool.and_eq_true] at h
    rw [List.dropWhile_cons, List.dropWhile_cons]
    by_cases h1 : p c = true
    · rw [if_pos h1, if_pos (by rw [← hp c d h.1]; exact h1)]
      exact caseVar_dropWhile p hp h.2
    · rw [if_neg h1, if_neg (by rw [← hp c d h.1]; exact h1)]
      simp [caseVar, h.1, h.2]
  | [], _ :: _, h => by simp [caseVar] at h
  | _ :: _, [], h => by simp [caseVar] at h

theorem isPySpace_caseEqB {c d : Char} (h : caseEqB c d = true) :
    isPySpace c = isPySpace d := by
  have key : ∀ k : Nat, k < 65 → ((c.toNat = k) ↔ (d.toNat = k)) := by
    intro k hk
    simp only [caseEqB, decide_eq_true_eq, lowerNat] at h
    split_ifs at h <;> omega
  rw [isPySpace_eq, isPySpace_eq,
    decide_eq_decide.mpr (key 32 (by norm_num)), decide_eq_decide.mpr (key 9 (by norm_num)),
    decide_eq_decide.mpr (key 10 (by norm_num)), decide_eq_decide.mpr (key 13 (by norm_num)),
    decide_eq_decide.mpr (key 11 (by norm_num)), decide_eq_decide.mpr (key 12 (by norm_num))]

theorem featSubGo_caseVar : ∀ (fuel : Nat) {l m : List Char}, caseVar l m = true →
    caseVar (featSubGo fuel l) (featSubGo fuel m) = true
  | 0, _, _, h => h
  | _ + 1, [], [], h => h
  | fuel + 1, c :: cs, d :: ds, h => by
    have h' := h
    simp only [caseVar, Bool.and_eq_true] at h'
    rw [featSubGo, featSubGo]
    have hsw : startsWithFeat (c :: cs) = startsWithFeat (d :: ds) := isCIPrefix_caseVar _ h
    by_cases h1 : startsWithFeat (c :: cs) = true
    · rw [if_pos h1, if_pos (hsw ▸ h1)]
      have hdrop : caseVar (cs.drop 5) (ds.drop 5) = true := caseVar_drop 5 h'.2
      rcases featClose_caseVar hdrop with ⟨hn1, hn2⟩ | ⟨a, b, ha, hb, hab⟩
      · rw [hn1, hn2]
        show caseVar (c :: featSubGo fuel cs) (d :: featSubGo fuel ds) = true
        simp [caseVar, h'.1, featSubGo_caseVar fuel h'.2]
      · rw [ha, hb]
        exact featSubGo_caseVar fuel hab
    · rw [if_neg h1, if_neg (by rw [← hsw]; exact h1)]
      simp [caseVar, h'.1, featSubGo_caseVar fuel h'.2]
  | _ + 1, [], _ :: _, h => by simp [caseVar] at h
  | _ + 1, _ :: _, [], h => by simp [caseVar] at h

theorem remixSubGo_caseVar : ∀ (fuel : Nat) {l m : List Char}, caseVar l m = true →
    caseVar (remixSubGo fuel l) (remixSubGo fuel m) = true
  | 0, _, _, h => h
  | _ + 1, [], [], h => h
  | fuel + 1, c :: cs, d :: ds, h => by
    simp only [caseVar, Bool.and_eq_true] at h
    have hws : caseVar (cs.dropWhile isPySpace) (ds.dropWhile isPySpace) = true :=
      caseVar_dropWhile isPySpace (fun a b hab => isPySpace_caseEqB hab) h.2
    have hdash : (c == '-') = (d == '-') := caseEqB_beq_eq h.1 (Or.inl (by decide))
    have hkw : remixKeywordAt (cs.dropWhile isPySpace) =
        remixKeywordAt (ds.dropWhile isPySpace) := by
      rw [remixKeywordAt, remixKeywordAt, isCIPrefix_caseVar _ hws, isCIPrefix_caseVar _ hws,
        isCIPrefix_caseVar _ hws, isCIPrefix_caseVar _ hws]
    rw [remixSubGo, remixSubGo]
    by_cases h1 : (c == '-' && remixKeywordAt (cs.dropWhile isPySpace)) = true
    · rw [if_pos h1, if_pos (by rw [← hdash, ← hkw]; exact h1)]
      apply remixSubGo_caseVar fuel
      exact caseVar_dropWhile _
        (fun a b hab => by rw [caseEqB_beq_eq hab (Or.inl (by decide))]) hws
    · rw [if_neg h1, if_neg (by rw [← hdash, ← hkw]; exact h1)]
      simp [caseVar, h.1, remixSubGo_caseVar fuel h.2]
  | _ + 1, [], _ :: _, h => by simp [caseVar] at h
  | _ + 1, _ :: _, [], h => by simp [caseVar] at h

theorem caseVar_map_toLower : ∀ {l m : List Char}, caseVar l m = true →
    l.map Char.toLower = m.map Char.toLower
  | [], [], _ => rfl
  | c :: cs, d :: ds, h => by
    simp only [caseVar, Bool.and_eq_true] at h
    rw [List.map_cons, List.map_cons, caseEqB_lower_eq h.1, caseVar_map_toLower h.2]
  | [], _ :: _, h => by simp [caseVar] at h
  | _ :: _, [], h => by simp [caseVar] at h

/-- Canonicalization identifies strings that differ only in ASCII letter case. -/
theorem canonicalize_caseVar {s t : String} (h : caseVar s.data t.data = true) :
    canonicalize_string s = canonicalize_string t := by
  rw [canonicalize_string_eq, canonicalize_string_eq]
  have h1 := unidecodeList_caseVar h
  have hlen1 : (unidecodeList s.data).length = (unidecodeList t.data).length :=
    caseVar_length h1
  have h2 : caseVar (featSub (unidecodeList s.data)) (featSub (unidecodeList t.data)) = true := by
    rw [featSub, featSub, hlen1]
    exact featSubGo_caseVar _ h1
  have hlen2 := caseVar_length h2
  have h3 : caseVar (remixSub (featSub (unidecodeList s.data)))
      (remixSub (featSub (unidecodeList t.data))) = true := by
    rw [remixSub, remixSub, hlen2]
    exact remixSubGo_caseVar _ h2
  have h4 := caseVar_map_toLower h3
  show String.mk (canonList s.data) = String.mk (canonList t.data)
  rw [canonList, canonList, h4]

/-! ## Punctuation

ASCII punctuation (Python `string.punctuation`): code points 33-47, 58-64,
91-96 and 123-126. -/

def isPunctChar (c : Char) : Bool :=
  (decide (33 ≤ c.toNat) && decide (c.toNat ≤ 47)) ||
    (decide (58 ≤ c.toNat) && decide (c.toNat ≤ 64)) ||
    (decide (91 ≤ c.toNat) && decide (c.toNat ≤ 96)) ||
    (decide (123 ≤ c.toNat) && decide (c.toNat ≤ 126))

/-- Two character lists agree position-wise except that at some positions
both hold (possibly different) punctuation characters. -/
def punctOnlyDiff : List Char → List Char → Bool
  | [], [] => true
  | c :: cs, d :: ds => (c == d || (isPunctChar c && isPunctChar d)) && punctOnlyDiff cs ds
  | _, _ => false

/-- C4: canonicalization is idempotent:
`canonicalize(canonicalize(x)) == canonicalize(x)` for every string `x`. -/
theorem canonicalize_idempotent (s : String) :
    canonicalize_string (canonicalize_string s) = canonicalize_string s := by
  rw [canonicalize_string_eq s, canonicalize_string_eq (String.mk (canonList s.data))]
  show String.mk (canonList (canonList s.data)) = String.mk (canonList s.data)
  rw [canonList_id (canonList_isCanonKey s.data)]

/-- C5 counterexample: the strings `"a-mix"` and `"a.mix"` differ only in a
single punctuation character (a hyphen versus a period), yet their
canonical keys differ, because the hyphen triggers the remix-suffix
pattern.  This refutes the claim that any two inputs differing only in
punctuation canonicalize identically. -/
theorem canonicalize_punct_counterexample :
    punctOnlyDiff "a-mix".data "a.mix".data = true ∧
      canonicalize_string "a-mix" ≠ canonicalize_string "a.mix" := by
  constructor
  · decide
  · decide

/-- C5 (amended): canonicalize returns identical keys for inputs that
differ only in ASCII letter case, and for inputs that transliterate
identically under unidecode (which covers accent and diacritic
differences); in particular `canonicalize("Café (feat. X)") ==
canonicalize("CAFE")`.  Punctuation differences are excluded from the
universal statement: they can change the key when they create or remove a
feat./remix pattern match (see the counterexample). -/
theorem canonicalize_insensitivity :
    (∀ s t : String, caseVar s.data t.data = true →
      canonicalize_string s = canonicalize_string t)
    ∧ (∀ s t : String, unidecodeList s.data = unidecodeList t.data →
      canonicalize_string s = canonicalize_string t)
    ∧ canonicalize_string "Café (feat. X)" = canonicalize_string "CAFE" := by
  refine ⟨fun s t h => canonicalize_caseVar h, fun s t h => ?_, by decide⟩
  rw [canonicalize_string_eq, canonicalize_string_eq, canonList, canonList, h]

/-- Witness for C5: the amended theorem applied at concrete inputs. -/
theorem canonicalize_insensitivity_witness :
    canonicalize_string "AbC" = canonicalize_string "aBc" :=
  canonicalize_insensitivity.1 "AbC" "aBc" (by decide)

/-! ## Data model: inventory, manifest and matched records

`scan_music_library` produces one row per audio file (columns
file_path, artist_raw, title_raw, album_raw, artist_canonical,
title_canonical, duration_ms).  A Spotify manifest row carries the
playlist name, the display columns, the duration, the snapshot flags and
the derived canonical keys (section 5/6 of the script). -/

structure InventoryRecord where
  file_path : String
  artist_raw : String
  title_raw : String
  album_raw : Option String
  artist_canonical : String
  title_canonical : String
  duration_ms : Option Int
deriving DecidableEq

structure ManifestRecord where
  playlist_name : String
  track_name : String
  album_name : Option String
  artists_field : String
  primary_artist : String
  duration_ms : Option Int
  is_liked : Bool
  is_top_songs : Bool
  artist_canonical : String
  title_canonical : String
deriving DecidableEq

/-- A row of the merged table: a manifest row plus the columns brought in
from the library (`file_path`, `duration_ms_local`), absent when the row
is unmatched. -/
structure MatchedRecord extends ManifestRecord where
  file_path : Option String
  duration_ms_local : Option Int
deriving DecidableEq

def DURATION_TOLERANCE_MS : Int := 3000

def keyMatches (m : ManifestRecord) (l : InventoryRecord) : Bool :=
  m.artist_canonical == l.artist_canonical && m.title_canonical == l.title_canonical

def unmatchedRow (m : ManifestRecord) : MatchedRecord :=
  { toManifestRecord := m, file_path := none, duration_ms_local := none }

/-- One manifest row after the left merge
`spotify_df.merge(lib_cols, how="left", on=["artist_canonical", "title_canonical"])`:
a left row with no key match yields a single row with NA library columns;
a left row with k key matches yields k rows, one per matching library
row, in library order.  (pandas duplicates the left row for every match;
it does not pick one.) -/
def matchedOf (m : ManifestRecord) (l : InventoryRecord) : MatchedRecord :=
  { toManifestRecord := m, file_path := some l.file_path,
    duration_ms_local := l.duration_ms }

def mergeRow (library : List InventoryRecord) (m : ManifestRecord) : List MatchedRecord :=
  match library.filter (keyMatches m) with
  | [] => [unmatchedRow m]
  | ms => ms.map (matchedOf m)

/-- The duration filter of `match_tracks`, lines 205-207 of the script:

    mask = merged["duration_ms_local"].notna() & merged["Duration (ms)"].notna()
    mismatched = mask & (merged["Duration (ms)"] - merged["duration_ms_local"]).abs() > duration_tolerance_ms

Python parses the second line as
`(mask & abs_diff) > duration_tolerance_ms`, because `&` binds tighter
than `>`.  For the pandas logical `&` between a boolean Series and a
float Series, the float operand is coerced to boolean (pandas
`ops.logical_op` / `fill_bool`: NaN becomes False, any other value
becomes its truth value, so a non-zero absolute difference becomes True).
The resulting boolean Series is then compared with the tolerance, with
True counting as 1 and False as 0.  Hence this mask is true on a row iff
both durations are present, they differ, and `1 > duration_tolerance_ms` --
i.e. it is identically false for every tolerance of at least 1 ms. -/
def mismatchMask (duration_tolerance_ms : Int) (row : MatchedRecord) : Bool :=
  let mask := row.duration_ms_local.isSome && row.duration_ms.isSome
  let absDiffAsBool :=
    match row.duration_ms, row.duration_ms_local with
    | some a, some b => decide ((a - b).natAbs ≠ 0)
    | _, _ => false
  decide ((if mask && absDiffAsBool then (1 : Int) else 0) > duration_tolerance_ms)

/-- `merged.loc[mismatched, ["file_path", "duration_ms_local"]] = pd.NA` on one row. -/
def applyTolerance (duration_tolerance_ms : Int) (row : MatchedRecord) : MatchedRecord :=
  if mismatchMask duration_tolerance_ms row then
    { row with file_path := none, duration_ms_local := none }
  else row

/-- `match_tracks(spotify_df, library_df, duration_tolerance_ms)`.  The
Python default for the tolerance is `DURATION_TOLERANCE_MS` (3000). -/
def match_tracks (spotify : List ManifestRecord) (library : List InventoryRecord)
    (duration_tolerance_ms : Int) : List MatchedRecord :=
  if spotify.isEmpty then []
  else if library.isEmpty then spotify.map unmatchedRow
  else ((spotify.map (mergeRow library)).flatten).map (applyTolerance duration_tolerance_ms)

/-! ## The duration filter is inert for any positive tolerance -/

theorem applyTolerance_id {duration_tolerance_ms : Int} (h : 1 ≤ duration_tolerance_ms)
    (row : MatchedRecord) : applyTolerance duration_tolerance_ms row = row := by
  rw [applyTolerance, if_neg]
  rw [mismatchMask]
  simp only [decide_eq_true_eq, not_lt]
  split <;> omega

theorem match_tracks_eq_merge (s : List ManifestRecord) (l : List InventoryRecord)
    (tol : Int) (hl : l ≠ []) (htol : 1 ≤ tol) :
    match_tracks s l tol = (s.map (mergeRow l)).flatten := by
  rw [match_tracks]
  cases s with
  | nil => simp
  | cons m rest =>
    rw [if_neg (by simp), if_neg (by simpa [List.isEmpty_iff] using hl)]
    exact list_map_id_of (fun r _ => applyTolerance_id htol r)

/-! ## C1: the worked duration example -/

/-- The manifest row of the spec's duration example: duration 200000 ms. -/
def exManifestRow : ManifestRecord :=
  { playlist_name := "P", track_name := "Song One", album_name := some "Album",
    artists_field := "Artist A", primary_artist := "Artist A",
    duration_ms := some 200000, is_liked := false, is_top_songs := false,
    artist_canonical := "artist a", title_canonical := "song one" }

/-- The matching inventory row of the duration example: duration 210000 ms. -/
def exInventoryRow : InventoryRecord :=
  { file_path := "Artist A/Album/Song One.mp3", artist_raw := "Artist A",
    title_raw := "Song One", album_raw := some "Album",
    artist_canonical := "artist a", title_canonical := "song one",
    duration_ms := some 210000 }

/-- C1 (behaviour of the code at the claim's failing input): with manifest
duration 200000 ms, local duration 210000 ms and the default tolerance of
3000 ms, `match_tracks` KEEPS the match -- `file_path` and the local
duration survive -- because line 206 of the script,
`mismatched = mask & (...).abs() > duration_tolerance_ms`, parses as
`(mask & abs) > tolerance` and is therefore false on every row whenever
the tolerance is at least 1 ms.  The claim (and section 4.5 of the spec)
say this row must revert to unmatched. -/
theorem match_tracks_keeps_mismatched_duration :
    match_tracks [exManifestRow] [exInventoryRow] 3000 =
      [{ toManifestRecord := exManifestRow,
         file_path := some "Artist A/Album/Song One.mp3",
         duration_ms_local := some 210000 }] := by
  decide

/-! ## C3: row multiplicity of the merge -/

/-- A second inventory row sharing the same canonical keys. -/
def exInventoryRowDup : InventoryRecord :=
  { file_path := "Other/Song One (Live).mp3", artist_raw := "Artist A",
    title_raw := "Song One", album_raw := none,
    artist_canonical := "artist a", title_canonical := "song one",
    duration_ms := some 200500 }

/-- C3 counterexample: with two inventory records sharing one canonical
key, `match_tracks` returns two rows for a single manifest row -- the
pandas left merge duplicates the manifest row per matching inventory
record, so the output does not have exactly one row per manifest row. -/
theorem match_tracks_not_one_row_per_manifest :
    (match_tracks [exManifestRow] [exInventoryRow, exInventoryRowDup] 3000).length ≠
      [exManifestRow].length := by
  decide

theorem countP_isSome_map_matchedOf (m : ManifestRecord) :
    ∀ ys : List InventoryRecord,
      (ys.map (matchedOf m)).countP (fun r => r.file_path.isSome) = ys.length
  | [] => rfl
  | y :: t => by
    rw [List.map_cons, List.countP_cons, countP_isSome_map_matchedOf m t, List.length_cons]
    rfl

theorem mergeRow_manifest (l : List InventoryRecord) (m : ManifestRecord) :
    (mergeRow l m).map (·.toManifestRecord) =
      List.replicate (max (l.countP (keyMatches m)) 1) m := by
  rw [mergeRow]
  cases hf : l.filter (keyMatches m) with
  | nil =>
    have h0 : l.countP (keyMatches m) = 0 := by
      rw [List.countP_eq_length_filter, hf]
      rfl
    rw [h0]
    rfl
  | cons x xs =>
    have hc : l.countP (keyMatches m) = xs.length + 1 := by
      rw [List.countP_eq_length_filter, hf, List.length_cons]
    rw [hc, List.map_map]
    have hmax : max (xs.length + 1) 1 = xs.length + 1 := by omega
    rw [hmax]
    have hconst : ((·.toManifestRecord) ∘ matchedOf m) =
        Function.const InventoryRecord m := rfl
    rw [hconst, List.map_const, List.length_cons]

theorem mergeRow_countP_isSome (l : List InventoryRecord) (m : ManifestRecord) :
    (mergeRow l m).countP (fun r => r.file_path.isSome) = l.countP (keyMatches m) := by
  rw [mergeRow]
  cases hf : l.filter (keyMatches m) with
  | nil =>
    have h0 : l.countP (keyMatches m) = 0 := by
      rw [List.countP_eq_length_filter, hf]
      rfl
    rw [h0]
    rfl
  | cons x xs =>
    have hc : l.countP (keyMatches m) = (x :: xs).length := by
      rw [List.countP_eq_length_filter, hf]
    rw [hc]
    exact countP_isSome_map_matchedOf m (x :: xs)

/-- C3 (amended): `match_tracks` does not return one row per manifest row;
it returns, for every manifest row, one output row per key-matching
inventory record -- all key matches resolve, in library scan order -- and
a single unmatched row when no inventory record matches.  Consequently,
for a non-empty library and any tolerance of at least 1 ms, mapping each
output row back to its manifest part yields each manifest row replicated
`max(matches, 1)` times, and the number of resolved rows equals the total
number of (manifest row, key-matching inventory record) pairs. -/
theorem match_tracks_row_multiplicity (s : List ManifestRecord)
    (l : List InventoryRecord) (tol : Int) (hl : l ≠ []) (htol : 1 ≤ tol) :
    ((match_tracks s l tol).map (·.toManifestRecord) =
      s.flatMap fun m => List.replicate (max (l.countP (keyMatches m)) 1) m)
    ∧ (match_tracks s l tol).countP (fun r => r.file_path.isSome) =
        (s.map fun m => l.countP (keyMatches m)).sum := by
  rw [match_tracks_eq_merge s l tol hl htol]
  constructor
  · induction s with
    | nil => rfl
    | cons m rest ih =>
      rw [List.map_cons, List.flatten_cons, List.map_append, ih, List.flatMap_cons,
        mergeRow_manifest]
  · induction s with
    | nil => rfl
    | cons m rest ih =>
      rw [List.map_cons, List.flatten_cons, List.countP_append, ih, List.map_cons,
        List.sum_cons, mergeRow_countP_isSome]

/-- Witness for C3: the amended theorem applied at a concrete manifest and
library exhibiting a duplicated key. -/
theorem match_tracks_row_multiplicity_witness :
    (((match_tracks [exManifestRow] [exInventoryRow, exInventoryRowDup] 3000).map
        (·.toManifestRecord) =
      [exManifestRow].flatMap fun m =>
        List.replicate (max ([exInventoryRow, exInventoryRowDup].countP (keyMatches m)) 1) m)
    ∧ (match_tracks [exManifestRow] [exInventoryRow, exInventoryRowDup] 3000).countP
        (fun r => r.file_path.isSome) =
        ([exManifestRow].map fun m =>
          [exInventoryRow, exInventoryRowDup].countP (keyMatches m)).sum) :=
  match_tracks_row_multiplicity [exManifestRow] [exInventoryRow, exInventoryRowDup] 3000
    (by decide) (by decide)

/-! ## Reconciliation reporters -/

def matchKey (r : MatchedRecord) : String × String := (r.artist_canonical, r.title_canonical)

def manifestKey (m : ManifestRecord) : String × String := (m.artist_canonical, m.title_canonical)

def invKey (r : InventoryRecord) : String × String := (r.artist_canonical, r.title_canonical)

/-- `missing = matched_df[matched_df["file_path"].isna()]`. -/
def missingRows (matched : List MatchedRecord) : List MatchedRecord :=
  matched.filter fun r => r.file_path.isNone

/-- Stable insertion into a sorted list: the new element goes after every
element that compares less-or-equal to it. -/
def insertSorted {α : Type} (le : α → α → Bool) (x : α) : List α → List α
  | [] => [x]
  | y :: ys => if le y x then y :: insertSorted le x ys else x :: y :: ys

/-- Stable sort (insertion sort).  Models the stable, sorted output order
of `groupby` keys and of `sort_values` (numpy lexsort). -/
def sortBy {α : Type} (le : α → α → Bool) (l : List α) : List α :=
  l.foldl (fun acc x => insertSorted le x acc) []

theorem mem_insertSorted {α : Type} (le : α → α → Bool) (x a : α) :
    ∀ l : List α, a ∈ insertSorted le x l ↔ a = x ∨ a ∈ l
  | [] => by simp [insertSorted]
  | y :: ys => by
    rw [insertSorted]
    split
    · rw [List.mem_cons, mem_insertSorted le x a ys, List.mem_cons]
      tauto
    · simp only [List.mem_cons]

theorem mem_sortBy {α : Type} (le : α → α → Bool) (a : α) (l : List α) :
    a ∈ sortBy le l ↔ a ∈ l := by
  rw [sortBy]
  suffices h : ∀ (l : List α) (acc : List α),
      a ∈ l.foldl (fun acc x => insertSorted le x acc) acc ↔ a ∈ acc ∨ a ∈ l by
    rw [h l []]
    simp
  intro l
  induction l with
  | nil => simp
  | cons x xs ih =>
    intro acc
    rw [List.foldl_cons, ih, mem_insertSorted, List.mem_cons]
    tauto

/-- Lexicographic order on (artist_canonical, title_canonical), the order
in which `groupby(["artist_canonical", "title_canonical"])` emits groups. -/
def keyLE (a b : String × String) : Bool :=
  decide (a.1 < b.1) || (decide (a.1 = b.1) && decide (a.2 ≤ b.2))

/-- The group keys of the shopping-list `groupby`: the distinct
(artist_canonical, title_canonical) pairs of the unmatched rows, in
sorted order. -/
def shoppingKeys (matched : List MatchedRecord) : List (String × String) :=
  sortBy keyLE ((missingRows matched).map matchKey).dedup

structure ShoppingRow where
  Artist : String
  Title : String
  Album : Option String
  Duration_ms : Option Int
  Playlists_Count : Nat
  Playlists : String
  Is_Liked : Bool
  Is_Top_Songs : Bool
deriving DecidableEq

def strLE (a b : String) : Bool := decide (a ≤ b)

/-- The aggregation of one (artist, title) group of `build_shopping_list`:
`first` takes the first non-NA value; the Album lambda takes the first
non-NA value when any non-NA value is truthy (a non-empty string), else NA;
playlist names are deduplicated and sorted; the flags are OR-reduced. -/
def shoppingRowFor (missing : List MatchedRecord) (k : String × String) : ShoppingRow :=
  let group := missing.filter fun r => matchKey r == k
  let albumVals := group.filterMap fun r => r.album_name
  let playlists := sortBy strLE (group.map fun r => r.playlist_name).dedup
  { Artist := (group.map fun r => r.primary_artist).headD ""
    Title := (group.map fun r => r.track_name).headD ""
    Album := if albumVals.any (fun s => !(s == "")) then albumVals.head? else none
    Duration_ms := (group.filterMap fun r => r.duration_ms).head?
    Playlists_Count := playlists.length
    Playlists := String.intercalate "; " playlists
    Is_Liked := group.any fun r => r.is_liked
    Is_Top_Songs := group.any fun r => r.is_top_songs }

/-- `sort_values(["Playlists_Count", "Is_Liked", "Artist", "Title"],
ascending=[False, False, True, True])` (stable lexicographic sort). -/
def shoppingLE (a b : ShoppingRow) : Bool :=
  if a.Playlists_Count ≠ b.Playlists_Count then decide (b.Playlists_Count < a.Playlists_Count)
  else if a.Is_Liked ≠ b.Is_Liked then a.Is_Liked
  else if a.Artist ≠ b.Artist then decide (a.Artist < b.Artist)
  else decide (a.Title ≤ b.Title)

def build_shopping_list (matched : List MatchedRecord) : List ShoppingRow :=
  if matched.isEmpty then []
  else if (missingRows matched).isEmpty then []
  else sortBy shoppingLE ((shoppingKeys matched).map (shoppingRowFor (missingRows matched)))

structure OrphanRow where
  Artist : String
  Title : String
  Album : Option String
  Duration_ms : Option Int
  file_path : String
deriving DecidableEq

/-- The library rows whose key appears in no row of the matched table
(`playlist_keys = set(zip(...))`; `mask = key not in playlist_keys`). -/
def orphanRecords (matched : List MatchedRecord) (library : List InventoryRecord) :
    List InventoryRecord :=
  library.filter fun r => !((matched.map matchKey).contains (invKey r))

def build_orphaned_tracks (matched : List MatchedRecord) (library : List InventoryRecord) :
    List OrphanRow :=
  if library.isEmpty then []
  else (orphanRecords matched library).map fun r =>
    { Artist := r.artist_raw, Title := r.title_raw, Album := r.album_raw,
      Duration_ms := r.duration_ms, file_path := r.file_path }

/-! ## Key facts about match_tracks rows -/

theorem matchKey_unmatchedRow (m : ManifestRecord) :
    matchKey (unmatchedRow m) = manifestKey m := rfl

theorem matchKey_matchedOf (m : ManifestRecord) (l : InventoryRecord) :
    matchKey (matchedOf m l) = manifestKey m := rfl

theorem keyMatches_eq_of_key {m m' : ManifestRecord}
    (h : manifestKey m = manifestKey m') : keyMatches m = keyMatches m' := by
  funext inv
  rw [manifestKey, manifestKey, Prod.mk.injEq] at h
  rw [keyMatches, keyMatches, h.1, h.2]

theorem mem_mergeRow_key {l : List InventoryRecord} {m : ManifestRecord} {r : MatchedRecord}
    (hr : r ∈ mergeRow l m) : matchKey r = manifestKey m := by
  rw [mergeRow] at hr
  split at hr
  · rw [List.mem_singleton] at hr
    subst hr
    rfl
  · obtain ⟨inv, _, hinv⟩ := List.mem_map.mp hr
    rw [← hinv]
    rfl

theorem mem_mergeRow_file_path {l : List InventoryRecord} {m : ManifestRecord}
    {r : MatchedRecord} (hr : r ∈ mergeRow l m) :
    (r.file_path = none ∧ l.filter (keyMatches m) = []) ∨
      (r.file_path.isSome = true ∧ l.filter (keyMatches m) ≠ []) := by
  rw [mergeRow] at hr
  split at hr
  · next heq =>
    rw [List.mem_singleton] at hr
    subst hr
    exact Or.inl ⟨rfl, heq⟩
  · next ms heq =>
    right
    obtain ⟨inv, _, hinv⟩ := List.mem_map.mp hr
    exact ⟨by rw [← hinv]; rfl, heq⟩

theorem mergeRow_ne_nil (l : List InventoryRecord) (m : ManifestRecord) :
    mergeRow l m ≠ [] := by
  rw [mergeRow]
  split
  · simp
  · next ms heq =>
    simpa using heq

/-- Every row of `match_tracks` comes from a manifest row with the same
key, and (for tolerance at least 1 ms) is resolved iff that manifest row
has a key match in the library. -/
theorem mem_match_tracks_cases {s : List ManifestRecord} {l : List InventoryRecord}
    {tol : Int} {r : MatchedRecord} (htol : 1 ≤ tol) (hr : r ∈ match_tracks s l tol) :
    ∃ m ∈ s, manifestKey m = matchKey r ∧
      ((r.file_path = none ∧ l.filter (keyMatches m) = []) ∨
        (r.file_path.isSome = true ∧ l.filter (keyMatches m) ≠ [])) := by
  by_cases hl : l = []
  · subst hl
    rw [match_tracks] at hr
    by_cases hs : s.isEmpty
    · rw [if_pos hs] at hr
      simp at hr
    · rw [if_neg hs] at hr
      have hred : (if ([] : List InventoryRecord).isEmpty = true then s.map unmatchedRow
          else ((s.map (mergeRow [])).flatten).map (applyTolerance tol)) =
          s.map unmatchedRow := rfl
      rw [hred] at hr
      obtain ⟨m, hm, hmr⟩ := List.mem_map.mp hr
      exact ⟨m, hm, by rw [← hmr]; rfl, Or.inl ⟨by rw [← hmr]; rfl, rfl⟩⟩
  · rw [match_tracks_eq_merge s l tol hl htol] at hr
    obtain ⟨rows, hrows, hrr⟩ := List.mem_flatten.mp hr
    obtain ⟨m, hm, hmrows⟩ := List.mem_map.mp hrows
    subst hmrows
    exact ⟨m, hm, (mem_mergeRow_key hrr).symm, mem_mergeRow_file_path hrr⟩

theorem manifestKey_mem_match_tracks {s : List ManifestRecord} {l : List InventoryRecord}
    {tol : Int} {m : ManifestRecord} (htol : 1 ≤ tol) (hm : m ∈ s) :
    manifestKey m ∈ (match_tracks s l tol).map matchKey := by
  by_cases hl : l = []
  · subst hl
    have h1 : match_tracks s [] tol = s.map unmatchedRow := by
      rw [match_tracks, if_neg (by rw [List.isEmpty_iff]; exact List.ne_nil_of_mem hm)]
      rfl
    rw [h1, List.map_map]
    exact List.mem_map.mpr ⟨m, hm, rfl⟩
  · rw [match_tracks_eq_merge s l tol hl htol]
    obtain ⟨r, hrmem⟩ : ∃ r, r ∈ mergeRow l m := by
      cases hmr : mergeRow l m with
      | nil => exact absurd hmr (mergeRow_ne_nil l m)
      | cons x xs => exact ⟨x, List.mem_cons_self x xs⟩
    apply List.mem_map.mpr
    refine ⟨r, ?_, mem_mergeRow_key hrmem⟩
    exact List.mem_flatten.mpr ⟨mergeRow l m, List.mem_map.mpr ⟨m, hm, rfl⟩, hrmem⟩

/-! ## C6: shopping list versus accepted matches; orphans versus manifests -/

/-- Manifest rows for the C6 example: same canonical key, different
playlists, one with an unknown duration and one with duration 5 ms. -/
def exM1 : ManifestRecord :=
  { exManifestRow with playlist_name := "P1", duration_ms := none }

def exM2 : ManifestRecord :=
  { exManifestRow with playlist_name := "P2", duration_ms := some 5 }

def exInv6 : InventoryRecord :=
  { exInventoryRow with duration_ms := some 7 }

/-- A manifest row whose key matches nothing in the library. -/
def exM3 : ManifestRecord :=
  { exManifestRow with artist_canonical := "zz", title_canonical := "yy" }

/-- C6 counterexample: at tolerance 0 the claim fails.  The (otherwise
inert) duration mask `(mask & bool_diff) > tolerance` becomes true on rows
where both durations are present and differ, so the duration filter clears
the `P2` row of the key while the `P1` row of the same key (whose manifest
duration is absent) stays resolved: the key is then both a group key of
the shopping list and the key of an accepted match in the matcher
output. -/
theorem shopping_overlap_at_zero_tolerance :
    (shoppingKeys (match_tracks [exM1, exM2] [exInv6] 0)).contains
        ("artist a", "song one") = true
    ∧ (match_tracks [exM1, exM2] [exInv6] 0).any
        (fun r => matchKey r == ("artist a", "song one") && r.file_path.isSome) = true := by
  constructor
  · decide
  · decide

/-- C6 (amended): for every tolerance of at least 1 ms (in particular the
default 3000 ms), no (artist_key, title_key) group key of the shopping
list belongs to a row of the matcher output with a resolved file -- every
row carrying a shopping-list key is unmatched; and, for the same
tolerances, no inventory record selected by the orphan computation has a
key equal to the key of any manifest record.  (At tolerance 0 or below
the first part fails; see the counterexample.) -/
theorem shopping_orphan_disjoint (s : List ManifestRecord) (l : List InventoryRecord)
    (tol : Int) (htol : 1 ≤ tol) :
    (∀ k ∈ shoppingKeys (match_tracks s l tol), ∀ r ∈ match_tracks s l tol,
      matchKey r = k → r.file_path = none)
    ∧ (∀ inv ∈ orphanRecords (match_tracks s l tol) l, ∀ m ∈ s,
      manifestKey m ≠ invKey inv) := by
  constructor
  · intro k hk r hr hkey
    rw [shoppingKeys, mem_sortBy, List.mem_dedup] at hk
    obtain ⟨r0, hr0mem, hr0key⟩ := List.mem_map.mp hk
    rw [missingRows, List.mem_filter] at hr0mem
    obtain ⟨hr0matched, hr0none⟩ := hr0mem
    rw [Option.isNone_iff_eq_none] at hr0none
    obtain ⟨m0, _, hm0key, hm0cases⟩ := mem_match_tracks_cases htol hr0matched
    have hm0filter : l.filter (keyMatches m0) = [] := by
      rcases hm0cases with ⟨_, hf⟩ | ⟨hsome, _⟩
      · exact hf
      · rw [hr0none] at hsome
        simp at hsome
    obtain ⟨m, _, hmkey, hmcases⟩ := mem_match_tracks_cases htol hr
    rcases hmcases with ⟨hnone, _⟩ | ⟨_, hne⟩
    · exact hnone
    · exfalso
      apply hne
      rw [@keyMatches_eq_of_key m m0 (by rw [hmkey, hkey, ← hr0key, hm0key])]
      exact hm0filter
  · intro inv hinv m hm
    rw [orphanRecords, List.mem_filter] at hinv
    have hnotin := hinv.2
    intro hkeq
    rw [Bool.not_eq_true'] at hnotin
    have hmem : invKey inv ∈ (match_tracks s l tol).map matchKey := by
      rw [← hkeq]
      exact manifestKey_mem_match_tracks htol hm
    have h2 := List.elem_eq_true_of_mem hmem
    rw [List.contains] at hnotin
    rw [h2] at hnotin
    exact absurd hnotin (by simp)

/-- Witness for C6: the amended theorem applied at a manifest whose key
has no library match, instantiated at the concrete unmatched row. -/
theorem shopping_orphan_disjoint_witness :
    (unmatchedRow exM3).file_path = none :=
  (shopping_orphan_disjoint [exM3] [exInv6] 3000 (by decide)).1
    ("zz", "yy") (by decide) (unmatchedRow exM3) (by decide) (by decide)

/-! ## Playlist statistics (section 9 of the script)

Real arithmetic is modelled exactly over the rationals.  `pandas.round(1)`
follows numpy rounding: round half to even (ties go to the even
multiple of 0.1). -/

/-- Round half to even: the rounding used by numpy / `Series.round`. -/
def roundHalfEven (q : ℚ) : ℤ :=
  let f := ⌊q⌋
  if q - f < 1/2 then f
  else if 1/2 < q - f then f + 1
  else if f % 2 = 0 then f else f + 1

/-- `.round(1)`: round to one decimal place, half to even. -/
def roundTo1 (q : ℚ) : ℚ := (roundHalfEven (q * 10) : ℚ) / 10

structure StatsRow where
  playlist_name : String
  Total_Tracks : Nat
  Matched_Tracks : Nat
  Liked_Snapshot : Bool
  Top_Songs_Snapshot : Bool
  Missing_Tracks : Int
  Percent_Complete : ℚ
deriving DecidableEq

/-- The group keys of `groupby("playlist_name", dropna=False)`: the
distinct playlist names, sorted. -/
def playlistNames (matched : List MatchedRecord) : List String :=
  sortBy strLE (matched.map fun r => r.playlist_name).dedup

def playlistGroup (matched : List MatchedRecord) (name : String) : List MatchedRecord :=
  matched.filter fun r => r.playlist_name == name

/-- One row of the `stats` table: Total = group size, Matched = count of
non-null resolved files, the snapshot flags are OR-reduced,
Missing = Total - Matched, Percent = Matched / Total * 100 rounded to one
decimal. -/
def statsRow (matched : List MatchedRecord) (name : String) : StatsRow :=
  let g := playlistGroup matched name
  let total := g.length
  let matchedCount := g.countP fun r => r.file_path.isSome
  { playlist_name := name,
    Total_Tracks := total,
    Matched_Tracks := matchedCount,
    Liked_Snapshot := g.any fun r => r.is_liked,
    Top_Songs_Snapshot := g.any fun r => r.is_top_songs,
    Missing_Tracks := (total : Int) - (matchedCount : Int),
    Percent_Complete := roundTo1 ((matchedCount : ℚ) / (total : ℚ) * 100) }

/-- `sort_values(["Percent_Complete", "playlist_name"], ascending=[False, True])`. -/
def statsLE (a b : StatsRow) : Bool :=
  if a.Percent_Complete ≠ b.Percent_Complete then decide (b.Percent_Complete < a.Percent_Complete)
  else strLE a.playlist_name b.playlist_name

/-- The `stats` table of section 9 of the script.  (The notebook cell
computes it only when `matched_df` is non-empty; on an empty table the
grouping below is empty as well.) -/
def stats (matched : List MatchedRecord) : List StatsRow :=
  sortBy statsLE ((playlistNames matched).map (statsRow matched))

theorem roundHalfEven_nonneg {q : ℚ} (h : 0 ≤ q) : 0 ≤ roundHalfEven q := by
  rw [roundHalfEven]
  have hf : (0 : ℤ) ≤ ⌊q⌋ := Int.floor_nonneg.mpr h
  split
  · exact hf
  · split
    · omega
    · split <;> omega

theorem roundHalfEven_le {q : ℚ} {B : ℤ} (h : q ≤ (B : ℚ)) : roundHalfEven q ≤ B := by
  rw [roundHalfEven]
  have hf : ⌊q⌋ ≤ B := by
    have := Int.floor_le_floor h
    rwa [Int.floor_intCast] at this
  split
  · exact hf
  · next hge =>
    have hlt : (⌊q⌋ : ℚ) < q := by
      rw [not_lt] at hge
      have hhalf : (0 : ℚ) < 1/2 := by norm_num
      linarith
    have : ⌊q⌋ < B := by
      have h2 : (⌊q⌋ : ℚ) < (B : ℚ) := lt_of_lt_of_le hlt h
      exact_mod_cast h2
    split
    · omega
    · split <;> omega

theorem roundTo1_bounds {q : ℚ} (h0 : 0 ≤ q) (h1 : q ≤ 100) :
    0 ≤ roundTo1 q ∧ roundTo1 q ≤ 100 := by
  have ha : (0 : ℚ) ≤ q * 10 := by linarith
  have hb : q * 10 ≤ ((1000 : ℤ) : ℚ) := by push_cast; linarith
  have h2 := roundHalfEven_nonneg ha
  have h3 := roundHalfEven_le hb
  constructor
  · rw [roundTo1]
    apply div_nonneg _ (by norm_num)
    exact_mod_cast h2
  · rw [roundTo1]
    rw [div_le_iff₀ (by norm_num : (0:ℚ) < 10)]
    have : ((roundHalfEven (q * 10) : ℤ) : ℚ) ≤ ((1000 : ℤ) : ℚ) := by exact_mod_cast h3
    push_cast at this ⊢
    linarith

theorem percent_nonneg_le (c t : Nat) (hct : c ≤ t) :
    0 ≤ ((c : ℚ) / (t : ℚ) * 100) ∧ (c : ℚ) / (t : ℚ) * 100 ≤ 100 := by
  constructor
  · positivity
  · rcases Nat.eq_zero_or_pos t with ht | ht
    · subst ht
      have hc : c = 0 := Nat.le_zero.mp hct
      subst hc
      norm_num
    · have htq : (0 : ℚ) < t := by exact_mod_cast ht
      have : (c : ℚ) / (t : ℚ) ≤ 1 := by
        rw [div_le_one htq]
        exact_mod_cast hct
      linarith

/-- C7: for every non-empty matcher output and every row of the
per-playlist statistics table, `Matched_Tracks + Missing_Tracks =
Total_Tracks` and `0 ≤ Percent_Complete ≤ 100`, where Percent_Complete is
Matched/Total*100 rounded to one decimal. -/
theorem stats_invariant (matched : List MatchedRecord) (_hne : matched ≠ [])
    (row : StatsRow) (hrow : row ∈ stats matched) :
    (row.Matched_Tracks : Int) + row.Missing_Tracks = (row.Total_Tracks : Int)
    ∧ 0 ≤ row.Percent_Complete ∧ row.Percent_Complete ≤ 100 := by
  rw [stats, mem_sortBy] at hrow
  obtain ⟨name, _, hr⟩ := List.mem_map.mp hrow
  subst hr
  refine ⟨?_, ?_⟩
  · simp only [statsRow]
    omega
  · simp only [statsRow]
    have hct : (playlistGroup matched name).countP (fun r => r.file_path.isSome) ≤
        (playlistGroup matched name).length := List.countP_le_length _
    have hq := percent_nonneg_le _ _ hct
    exact roundTo1_bounds hq.1 hq.2

/-- Witness for C7: the invariant applied at a one-row matched table. -/
theorem stats_invariant_witness :
    ((statsRow [unmatchedRow exManifestRow] "P").Matched_Tracks : Int) +
        (statsRow [unmatchedRow exManifestRow] "P").Missing_Tracks =
      ((statsRow [unmatchedRow exManifestRow] "P").Total_Tracks : Int)
    ∧ 0 ≤ (statsRow [unmatchedRow exManifestRow] "P").Percent_Complete
    ∧ (statsRow [unmatchedRow exManifestRow] "P").Percent_Complete ≤ 100 :=
  stats_invariant [unmatchedRow exManifestRow] (by decide)
    (statsRow [unmatchedRow exManifestRow] "P")
    (by
      have hstats : stats [unmatchedRow exManifestRow] =
          [statsRow [unmatchedRow exManifestRow] "P"] := rfl
      rw [hstats]
      exact List.mem_singleton.mpr rfl)

/-! ## safe_path_component -/

/-- The character class of `INVALID_PATH_CHARS = re.compile(r"[<>:\"/\\|?*]")`. -/
def isInvalidPathChar (c : Char) : Bool :=
  c == '<' || c == '>' || c == ':' || c == '"' || c == '/' || c == '\\' ||
    c == '|' || c == '?' || c == '*'

/-- `safe_path_component(value, fallback)`: take the stripped value when
the raw value is truthy (else the fallback), transliterate, delete
path-invalid characters, replace remaining slashes by hyphens (a no-op,
kept from the source), strip again, and fall back when empty. -/
def safe_path_component (value : Option String) (fallback : String) : String :=
  let candidate := match value with
    | some s => if s ≠ "" then String.mk (pyStrip s.data) else fallback
    | none => fallback
  let c1 := unidecodeList candidate.data
  let c2 := c1.filter fun c => !(isInvalidPathChar c)
  let c3 := c2.map fun c => if c == '/' then '-' else c
  let c4 := c3.map fun c => if c == '\\' then '-' else c
  let c5 := pyStrip c4
  if c5.isEmpty then fallback else String.mk c5

/-! ## Playlist export (section 10 of the script) -/

/-- The duration written on an `#EXTINF` line: the manifest duration when
present, else the local duration, converted to whole seconds with Python
`round` (round half to even); `-1` when neither duration is known. -/
def extinfDuration (row : MatchedRecord) : Int :=
  match row.duration_ms with
  | some ms => roundHalfEven ((ms : ℚ) / 1000)
  | none =>
    match row.duration_ms_local with
    | some ms => roundHalfEven ((ms : ℚ) / 1000)
    | none => -1

/-- `row.get("primary_artist") or row.get("Artist Name(s)") or "Unknown Artist"`
(Python string truthiness: the empty string falls through). -/
def extinfArtist (row : MatchedRecord) : String :=
  if row.primary_artist ≠ "" then row.primary_artist
  else if row.artists_field ≠ "" then row.artists_field
  else "Unknown Artist"

/-- `row.get("Track Name") or row.get("title") or "Unknown Title"`; a
manifest table has no `title` column, so that lookup yields None. -/
def extinfTitle (row : MatchedRecord) : String :=
  if row.track_name ≠ "" then row.track_name else "Unknown Title"

def extinfLine (row : MatchedRecord) : String :=
  "#EXTINF:" ++ toString (extinfDuration row) ++ "," ++
    extinfArtist row ++ " - " ++ extinfTitle row

/-- `str(track_rel).replace("\\", "/").lstrip("/")`. -/
def normalizeRel (l : List Char) : List Char :=
  (l.map fun c => if c == '\\' then '/' else c).dropWhile fun c => c == '/'

/-- The relative-path line written for a resolved row: the stored path is
normalized, a leading `<music folder name>/` (compared case-insensitively
after lower-casing both sides) is removed, and the remainder is written
after the fixed `../<music folder name>/` parent reference. -/
def pathLine (rel : String) (musicFolderName : String) : String :=
  let normalized := normalizeRel rel.data
  let musicPrefixChars := musicFolderName.data.map Char.toLower ++ ['/']
  let stripped :=
    if musicPrefixChars.isPrefixOf (normalized.map Char.toLower) then
      normalized.drop musicPrefixChars.length
    else normalized
  "../" ++ musicFolderName ++ "/" ++ String.mk stripped

/-- The lines of one exported `.m3u8` file: the fixed header, then, for
every row of the playlist group with a resolved file, one metadata line
and one path line; rows without a resolved file contribute nothing (they
are only counted as skipped). -/
def playlistLines (group : List MatchedRecord) (musicFolderName : String) : List String :=
  "#EXTM3U" :: group.flatMap fun row =>
    match row.file_path with
    | none => []
    | some rel => [extinfLine row, pathLine rel musicFolderName]

structure ExportRow where
  playlist_name : String
  playlist_file : String
  tracks_written : Nat
deriving DecidableEq

def humanPlaylistName (name : String) : String :=
  String.mk (name.data.map fun c => if c == '_' then ' ' else c)

/-- One row of the export log: the humanized name, the sanitized file
name, and the number of track entries written (one per resolved row). -/
def exportRowFor (matched : List MatchedRecord) (exportDirName : String)
    (name : String) : ExportRow :=
  let human := humanPlaylistName name
  let safe := safe_path_component (some human) "Playlist"
  { playlist_name := human,
    playlist_file := exportDirName ++ "/" ++ safe ++ ".m3u8",
    tracks_written := (playlistGroup matched name).countP fun r => r.file_path.isSome }

/-- `export_playlists`: the export log plus the total count of rows
skipped because their audio file is missing.  Writing the files
themselves is file-system output; the content written per playlist is
`playlistLines`. -/
def export_playlists (matched : List MatchedRecord) (exportDirName : String) :
    List ExportRow × Nat :=
  ((playlistNames matched).map (exportRowFor matched exportDirName),
   ((playlistNames matched).map fun name =>
      (playlistGroup matched name).countP fun r => r.file_path.isNone).sum)

theorem playlistLines_aux (mfn : String) : ∀ g : List MatchedRecord,
    (g.flatMap fun row =>
      match row.file_path with
      | none => ([] : List String)
      | some rel => [extinfLine row, pathLine rel mfn]).length
    = 2 * (g.countP fun r => r.file_path.isSome)
  | [] => rfl
  | r :: t => by
    rw [List.flatMap_cons, List.length_append, playlistLines_aux mfn t, List.countP_cons]
    cases hf : r.file_path with
    | none => simp [hf]
    | some rel =>
      simp [hf]
      omega

/-- C8: for every playlist group, the exported file consists of exactly
`1 + 2 * M` lines where `M` is the number of rows with a resolved file
(the header plus one metadata line and one path line per resolved row);
the logged `tracks_written` equals that same `M`; and a resolved row with
no known duration carries `-1` as the duration of its metadata line. -/
theorem export_line_count (matched : List MatchedRecord) (name : String)
    (exportDirName mfn : String) :
    (playlistLines (playlistGroup matched name) mfn).length =
      1 + 2 * ((playlistGroup matched name).countP fun r => r.file_path.isSome)
    ∧ (exportRowFor matched exportDirName name).tracks_written =
      (playlistGroup matched name).countP (fun r => r.file_path.isSome)
    ∧ (∀ row ∈ playlistGroup matched name, row.file_path.isSome = true →
        row.duration_ms = none → row.duration_ms_local = none →
        extinfDuration row = -1) := by
  refine ⟨?_, rfl, ?_⟩
  · rw [playlistLines, List.length_cons, playlistLines_aux]
    omega
  · intro row _ _ h1 h2
    rw [extinfDuration, h1, h2]

/-- Witness for C8: a matched row with neither duration known gets `-1`. -/
theorem export_line_count_witness :
    extinfDuration (matchedOf { exManifestRow with duration_ms := none }
      { exInventoryRow with duration_ms := none }) = -1 :=
  (export_line_count [matchedOf { exManifestRow with duration_ms := none }
      { exInventoryRow with duration_ms := none }] "P" "Playlists" "Music").2.2
    (matchedOf { exManifestRow with duration_ms := none }
      { exInventoryRow with duration_ms := none })
    (by decide) (by decide) rfl rfl

/-- C10: for every stored path that begins -- case-insensitively, after
backslash normalization and stripping leading slashes -- with the music
folder name followed by a slash, that prefix is removed and the written
line is `../<music folder name>/<remainder>`, so the folder name is not
doubled. -/
theorem pathLine_strips_music_folder (rel musicFolderName : String)
    (h : (musicFolderName.data.map Char.toLower ++ ['/']).isPrefixOf
        ((normalizeRel rel.data).map Char.toLower) = true) :
    pathLine rel musicFolderName =
      "../" ++ musicFolderName ++ "/" ++
        String.mk ((normalizeRel rel.data).drop (musicFolderName.data.length + 1)) := by
  simp only [pathLine]
  rw [if_pos h, List.length_append, List.length_map]
  rfl

/-- Witness for C10: a concrete library path that starts with the music
folder name. -/
theorem pathLine_strips_music_folder_witness :
    pathLine "Music/Artist A/Song.mp3" "Music" = "../Music/Artist A/Song.mp3" := by
  have h := pathLine_strips_music_folder "Music/Artist A/Song.mp3" "Music" (by decide)
  rw [h]
  rfl

/-! ## Import pipeline (process_new_additions, section 3 of the script)

The staged files and the music tree are modelled explicitly: a candidate
records the observations the code makes about one staged file (the
`is_file()` result at the enumeration filter, the `exists()` result when
its turn arrives, the tag-extraction outcome, and whether `shutil.move`
would raise), and `MusicFS` lists the directories and files of the music
tree consulted by the duplicate and existence checks.  Tag extraction is
an external collaborator (mutagen); its result is duck-typed as either a
structured tag (with a `text` list) or a plain string, as destructured by
the inner `tag_value`. -/

inductive TagVal where
  | structured : List String → TagVal
  | plain : String → TagVal
deriving DecidableEq

structure TagData where
  artist : Option TagVal
  title : Option TagVal
  album : Option TagVal
deriving DecidableEq

/-- `tag_value(raw_tag)`: a structured tag with a non-empty `text` list
yields its first entry stripped; a plain string is stripped; anything
else (no tag, or a structured tag with an empty text list) yields None. -/
def tag_value : Option TagVal → Option String
  | none => none
  | some (TagVal.structured []) => none
  | some (TagVal.structured (t :: _)) => some (String.mk (pyStrip t.data))
  | some (TagVal.plain s) => some (String.mk (pyStrip s.data))

inductive TagReadResult where
  | failed : String → TagReadResult
  | ok : Option TagData → TagReadResult
deriving DecidableEq

structure Candidate where
  relParts : List String
  isFile : Bool
  existsAtProcessing : Bool
  tagResult : TagReadResult
  moveFails : Option String
deriving DecidableEq

structure ImportAction where
  source : String
  destination : Option String
  playlist_target : Option String
  status : String
  reason : Option String
  artist : Option String
  album : Option String
  title : Option String
deriving DecidableEq

structure MusicFS where
  dirs : List String
  files : List String
deriving DecidableEq

def joinParts (parts : List String) : String := String.intercalate "/" parts

/-- The base name of a path string (after the last slash). -/
def pathName (p : String) : String :=
  String.mk ((p.data.reverse.takeWhile fun c => !(c == '/')).reverse)

/-- The parent of a path string (before the last slash; empty if none). -/
def pathParent (p : String) : String :=
  match p.data.reverse.dropWhile fun c => !(c == '/') with
  | [] => ""
  | _ :: rest => String.mk rest.reverse

/-- `pathlib.PurePath.suffix` of a file name. -/
def pySuffix (name : String) : String :=
  let l := name.data
  let afterDot := l.reverse.takeWhile fun c => !(c == '.')
  if afterDot.length = l.length then ""
  else
    let i := l.length - 1 - afterDot.length
    if 0 < i ∧ i < l.length - 1 then String.mk (l.drop i) else ""

/-- `pathlib.PurePath.stem` of a file name. -/
def pyStem (name : String) : String :=
  let l := name.data
  let afterDot := l.reverse.takeWhile fun c => !(c == '.')
  if afterDot.length = l.length then name
  else
    let i := l.length - 1 - afterDot.length
    if 0 < i ∧ i < l.length - 1 then String.mk (l.take i) else name

def strLower (s : String) : String := String.mk (s.data.map Char.toLower)

/-- `friendly_playlist_name`: the CSV stem with underscores as spaces,
stripped. -/
def friendly_playlist_name (stem : String) : String :=
  String.mk (pyStrip (stem.data.map fun c => if c == '_' then ' ' else c))

def PLAYLIST_STAGE_FOLDER : String := "To Playlist"

def SUPPORTED_IMPORT_SUFFIXES : List String :=
  [".mp3", ".flac", ".m4a", ".aac", ".ogg", ".wav"]

/-- The staging-folder lookup built from the playlist CSV stems: one entry
per CSV, keyed by the sanitized friendly name. -/
def stagingPairs (csvStems : List String) : List (String × String) :=
  csvStems.map fun stem =>
    let pname := friendly_playlist_name stem
    (safe_path_component (some pname) "Playlist", pname)

/-- Dictionary lookup with insertion-overwrite semantics (the last CSV
writing a key wins). -/
def stagingLookup (csvStems : List String) (dirName : String) : Option String :=
  (((stagingPairs csvStems).filter fun p => p.1 == dirName).getLast?).map fun p => p.2

def fileName (c : Candidate) : String := c.relParts.getLastD ""

def fileSuffix (c : Candidate) : String := pySuffix (fileName c)

def sourcePath (c : Candidate) : String := joinParts c.relParts

/-- The playlist-staging attribution: when the file lies under the
reserved staging subtree, the first component below it is looked up in
the staging dictionary; this lookup never fails the import. -/
def playlistTarget (csvStems : List String) (c : Candidate) : Option String :=
  match c.relParts with
  | first :: second :: _ =>
      if first == PLAYLIST_STAGE_FOLDER then stagingLookup csvStems second else none
  | _ => none

def tagsOf (c : Candidate) : Option TagData :=
  match c.tagResult with
  | TagReadResult.ok t => t
  | TagReadResult.failed _ => none

/-- Python truthiness of an optional string: None and the empty string
are falsy. -/
def pyFalsyS : Option String → Bool
  | none => true
  | some s => s == ""

/-- The path segments used for artist/album fallbacks: all components of
the path relative to the staging root (the file name included, as in the
source), with the reserved staging folder stripped when it leads. -/
def relParentParts (c : Candidate) : List String :=
  match c.relParts with
  | first :: rest => if first == PLAYLIST_STAGE_FOLDER then rest else c.relParts
  | [] => []

def resolvedArtist (c : Candidate) : Option String :=
  let v := tag_value ((tagsOf c).bind fun t => t.artist)
  if pyFalsyS v then
    match (relParentParts c).head? with
    | some p => some p
    | none => v
  else v

def resolvedAlbum (c : Candidate) : Option String :=
  let v := tag_value ((tagsOf c).bind fun t => t.album)
  if pyFalsyS v then
    match ((relParentParts c).drop 1).head? with
    | some p => some p
    | none => v
  else v

def resolvedTitle (c : Candidate) : Option String :=
  let v := tag_value ((tagsOf c).bind fun t => t.title)
  if pyFalsyS v then some (pyStem (fileName c)) else v

def artistComponent (c : Candidate) : String :=
  safe_path_component (resolvedArtist c) "Unknown Artist"

def albumComponent (c : Candidate) : String :=
  safe_path_component (resolvedAlbum c) "Unknown Album"

def titleComponent (c : Candidate) : String :=
  safe_path_component (resolvedTitle c) (pyStem (fileName c))

def destDirOf (musicRootName : String) (c : Candidate) : String :=
  musicRootName ++ "/" ++ artistComponent c ++ "/" ++ albumComponent c

def destPathOf (musicRootName : String) (c : Candidate) : String :=
  destDirOf musicRootName c ++ "/" ++ titleComponent c ++ strLower (fileSuffix c)

def filesInDir (fs : MusicFS) (dir : String) : List String :=
  fs.files.filter fun f => pathParent f == dir

/-- The destination-duplicate scan: when the destination directory
exists, the first of its files (in iteration order) whose stem
canonicalizes to the incoming title's canonical key. -/
def dupTarget (fs : MusicFS) (musicRootName : String) (c : Candidate) : Option String :=
  if fs.dirs.contains (destDirOf musicRootName c) then
    (filesInDir fs (destDirOf musicRootName c)).find? fun f =>
      canonicalize_string (pyStem (pathName f)) ==
        canonicalize_string ((resolvedTitle c).getD "")
  else none

def pathExists (fs : MusicFS) (p : String) : Bool :=
  fs.files.contains p || fs.dirs.contains p

def mkAction (c : Candidate) : ImportAction :=
  { source := sourcePath c, destination := none, playlist_target := none,
    status := "", reason := none, artist := none, album := none, title := none }

/-- One iteration of the per-file loop of `process_new_additions`,
returning the recorded action (none when the entry is filtered out before
an action dict is created) and the updated music tree.  A failing
`shutil.move` is modelled as raising after the (idempotent) `mkdir`. -/
def processOne (csvStems : List String) (musicRootName : String) (fs : MusicFS)
    (c : Candidate) : Option ImportAction × MusicFS :=
  if !c.isFile then (none, fs)
  else if !(SUPPORTED_IMPORT_SUFFIXES.contains (strLower (fileSuffix c))) then (none, fs)
  else if !c.existsAtProcessing then
    (some { mkAction c with
        status := "skipped_missing_source",
        reason := some "File disappeared before processing." }, fs)
  else
    let action0 := { mkAction c with playlist_target := playlistTarget csvStems c }
    match c.tagResult with
    | TagReadResult.failed msg =>
        (some { action0 with status := "error_read", reason := some msg }, fs)
    | TagReadResult.ok _ =>
      if pyFalsyS (resolvedArtist c) then
        (some { action0 with
            status := "skipped_unknown_artist",
            reason := some "Missing artist tag after fallbacks." }, fs)
      else if pyFalsyS (resolvedAlbum c) then
        (some { action0 with
            status := "skipped_unknown_album",
            reason := some "Missing album tag after fallbacks." }, fs)
      else if pyFalsyS (resolvedTitle c) then
        (some { action0 with
            status := "skipped_missing_tags",
            reason := some "Unable to infer track title." }, fs)
      else
        if pathExists fs (destPathOf musicRootName c) then
          (some { action0 with
              status := "skipped_exists",
              reason := some ("Destination already exists: " ++ destPathOf musicRootName c) },
            fs)
        else
          match dupTarget fs musicRootName c with
          | some conflict =>
            (some { action0 with
                status := "skipped_duplicate_title",
                reason := some ("Similar track already present: " ++ conflict) }, fs)
          | none =>
            let fs2 : MusicFS := { fs with
              dirs := fs.dirs ++
                [musicRootName ++ "/" ++ artistComponent c, destDirOf musicRootName c] }
            match c.moveFails with
            | some msg =>
              (some { action0 with status := "error_move", reason := some msg }, fs2)
            | none =>
              (some { action0 with
                  status := "moved",
                  destination := some (artistComponent c ++ "/" ++ albumComponent c ++
                    "/" ++ titleComponent c ++ strLower (fileSuffix c)),
                  artist := resolvedArtist c,
                  album := resolvedAlbum c,
                  title := resolvedTitle c },
               { fs2 with files := fs2.files ++ [destPathOf musicRootName c] })

/-- The per-file loop of `process_new_additions`: actions accumulate in
enumeration order and the music tree is threaded through, so an earlier
move is visible to the checks of later candidates. -/
def process_new_additions (csvStems : List String) (musicRootName : String)
    (fs : MusicFS) (candidates : List Candidate) : List ImportAction × MusicFS :=
  candidates.foldl
    (fun acc c =>
      let r := processOne csvStems musicRootName acc.2 c
      (match r.1 with
       | some a => acc.1 ++ [a]
       | none => acc.1, r.2))
    ([], fs)

structure PlaylistUpdate where
  playlist_name : String
  tracks_added : Nat
deriving DecidableEq

/-- The per-playlist summary of successful moves (groupby playlist
target, count, count-descending order). -/
def playlist_updates (actions : List ImportAction) : List PlaylistUpdate :=
  let moved := actions.filter fun a => a.status == "moved"
  let targets := sortBy strLE (moved.filterMap fun a => a.playlist_target).dedup
  sortBy (fun a b => decide (b.tracks_added ≤ a.tracks_added))
    (targets.map fun t =>
      { playlist_name := t,
        tracks_added := moved.countP fun a => a.playlist_target == some t })

/-! ## C9: vanished source files -/

/-- C9: an enumerated candidate (a regular file with a supported import
extension) that no longer exists when the `exists()` check of its turn
runs receives the terminal status `skipped_missing_source` with the fixed
reason text, and nothing else: no destination, no playlist attribution,
no tag fields, and the music tree is untouched -- the action is fully
determined before tag extraction, destination computation or any move is
attempted. -/
theorem process_missing_source (csvStems : List String) (musicRootName : String)
    (fs : MusicFS) (c : Candidate) (hfile : c.isFile = true)
    (hsuffix : SUPPORTED_IMPORT_SUFFIXES.contains (strLower (fileSuffix c)) = true)
    (hgone : c.existsAtProcessing = false) :
    processOne csvStems musicRootName fs c =
      (some { source := sourcePath c, destination := none, playlist_target := none,
              status := "skipped_missing_source",
              reason := some "File disappeared before processing.",
              artist := none, album := none, title := none }, fs) := by
  rw [processOne]
  rw [if_neg (by rw [hfile]; simp), if_neg (by rw [hsuffix]; simp),
    if_pos (by rw [hgone]; rfl)]
  rfl

def exC9 : Candidate :=
  { relParts := ["Artist A", "Album", "song.mp3"], isFile := true,
    existsAtProcessing := false, tagResult := TagReadResult.ok none, moveFails := none }

/-- Witness for C9 at a concrete vanished candidate. -/
theorem process_missing_source_witness :
    processOne [] "Music" { dirs := [], files := [] } exC9 =
      (some { source := "Artist A/Album/song.mp3", destination := none,
              playlist_target := none, status := "skipped_missing_source",
              reason := some "File disappeared before processing.",
              artist := none, album := none, title := none },
       { dirs := [], files := [] }) := by
  have h := process_missing_source [] "Music" { dirs := [], files := [] } exC9
    rfl (by decide) rfl
  rw [h]
  rfl

/-! ## C2: destination duplicate detection -/

/-- C2 (amended): for a processed candidate whose tag read succeeds and
whose artist/album/title resolve, if the destination directory exists and
holds a file whose stem canonicalizes to the incoming title's canonical
key (`dupTarget` yields that first conflicting file), and the exact
destination path itself does not already exist, then the recorded status
is `skipped_duplicate_title`, the reason names the conflicting file, and
the music tree is unchanged -- nothing is moved.  (When the exact
destination path does exist, the `skipped_exists` branch runs first and
shadows the duplicate classification; see the counterexample.) -/
theorem process_duplicate_title (csvStems : List String) (musicRootName : String)
    (fs : MusicFS) (c : Candidate) (conflict : String)
    (hfile : c.isFile = true)
    (hsuffix : SUPPORTED_IMPORT_SUFFIXES.contains (strLower (fileSuffix c)) = true)
    (hexists : c.existsAtProcessing = true)
    (hread : ∀ msg, c.tagResult ≠ TagReadResult.failed msg)
    (hartist : pyFalsyS (resolvedArtist c) = false)
    (halbum : pyFalsyS (resolvedAlbum c) = false)
    (htitle : pyFalsyS (resolvedTitle c) = false)
    (hdup : dupTarget fs musicRootName c = some conflict)
    (hnot : pathExists fs (destPathOf musicRootName c) = false) :
    processOne csvStems musicRootName fs c =
      (some { source := sourcePath c, destination := none,
              playlist_target := playlistTarget csvStems c,
              status := "skipped_duplicate_title",
              reason := some ("Similar track already present: " ++ conflict),
              artist := none, album := none, title := none }, fs) := by
  obtain ⟨t, ht⟩ : ∃ t, c.tagResult = TagReadResult.ok t := by
    cases hres : c.tagResult with
    | failed msg => exact absurd hres (hread msg)
    | ok t => exact ⟨t, rfl⟩
  rw [processOne]
  rw [if_neg (by rw [hfile]; simp), if_neg (by rw [hsuffix]; simp),
    if_neg (by rw [hexists]; simp)]
  rw [ht]
  show (if pyFalsyS (resolvedArtist c) = true then _ else _) = _
  rw [if_neg (by rw [hartist]; simp), if_neg (by rw [halbum]; simp),
    if_neg (by rw [htitle]; simp), if_neg (by rw [hnot]; simp), hdup]
  rfl

def exTags2 : TagData :=
  { artist := some (TagVal.plain "A"), title := some (TagVal.plain "Song"),
    album := some (TagVal.plain "B") }

def exC2 : Candidate :=
  { relParts := ["x.mp3"], isFile := true, existsAtProcessing := true,
    tagResult := TagReadResult.ok (some exTags2), moveFails := none }

def exFS2 : MusicFS :=
  { dirs := ["Music", "Music/A", "Music/A/B"], files := ["Music/A/B/Song.mp3"] }

/-- C2 counterexample: the destination directory `Music/A/B` contains
`Song.mp3`, whose stem canonicalizes exactly to the incoming title's
canonical key (the duplicate scan finds it), yet the recorded status is
`skipped_exists`, not `skipped_duplicate_title`: the exact-destination
check at line 550 of the script runs before the duplicate branch at line
555, so a same-named incoming file is classified `skipped_exists`. -/
theorem duplicate_title_shadowed_by_exists :
    dupTarget exFS2 "Music" exC2 = some "Music/A/B/Song.mp3"
    ∧ ((processOne [] "Music" exFS2 exC2).1.map fun a => a.status) =
      some "skipped_exists" := by
  constructor
  · rfl
  · rfl

def exTags2b : TagData :=
  { artist := some (TagVal.plain "A"), title := some (TagVal.plain "song"),
    album := some (TagVal.plain "B") }

def exC2b : Candidate :=
  { exC2 with tagResult := TagReadResult.ok (some exTags2b) }

/-- Witness for C2: the amended theorem at a concrete candidate whose
incoming title "song" canonicalizes like the stored `Song.mp3` but whose
exact destination path differs. -/
theorem process_duplicate_title_witness :
    processOne [] "Music" exFS2 exC2b =
      (some { source := "x.mp3", destination := none, playlist_target := none,
              status := "skipped_duplicate_title",
              reason := some "Similar track already present: Music/A/B/Song.mp3",
              artist := none, album := none, title := none }, exFS2) := by
  have h := process_duplicate_title [] "Music" exFS2 exC2b "Music/A/B/Song.mp3"
    rfl (by decide) rfl (fun msg hmsg => TagReadResult.noConfusion hmsg)
    rfl rfl rfl (by decide) (by decide)
  rw [h]
  rfl
